import Mathlib

/-!
Verification of the multimodal dictionary chatbot (safety gate, lexical
entry resolver, visual entry resolver, entry formatter).

The Python sources are embedded shallowly:

* `src/safety.py`      → namespace `Safety`
* `src/word_bot.py`    → namespace `WordBot`
* `src/image_bot.py`   → namespace `ImageBot`

Strings are modelled as Lean `String`s (lists of characters); the Python
string methods used by the code (`lower`, `strip`, `title`,
`replace("_", " ")`, `splitlines`, `startswith`, `endswith`) are modelled
for the ASCII character range, which covers every string the program
manipulates.  Probabilities (classifier confidences) are modelled as `ℚ`.
-/

namespace DictBot

/-! ### Python character and string primitives (ASCII scope) -/

/-- The characters removed by Python `str.strip()` (ASCII whitespace:
`\t\n\x0b\x0c\r`, space, and the separator controls `\x1c`–`\x1f`). -/
def pyIsSpace (c : Char) : Bool :=
  c = ' ' || c = '\t' || c = '\n' || c = '\x0b' || c = '\x0c' || c = '\r' ||
    c = '\x1c' || c = '\x1d' || c = '\x1e' || c = '\x1f'

/-- ASCII line-break characters recognised by Python `str.splitlines`:
`\n`, `\r` (with `\r\n` as a single break), `\x0b`, `\x0c`, and the
separator controls `\x1c`–`\x1e`. -/
def isLineBreak (c : Char) : Bool :=
  c = '\n' || c = '\r' || c = '\x0b' || c = '\x0c' ||
    c = '\x1c' || c = '\x1d' || c = '\x1e'

/-- ASCII `str.lower` on a single character (explicit table, so that no
reasoning about character codes is needed). -/
def pyLowerChar (c : Char) : Char :=
  match c with
  | 'A' => 'a' | 'B' => 'b' | 'C' => 'c' | 'D' => 'd' | 'E' => 'e'
  | 'F' => 'f' | 'G' => 'g' | 'H' => 'h' | 'I' => 'i' | 'J' => 'j'
  | 'K' => 'k' | 'L' => 'l' | 'M' => 'm' | 'N' => 'n' | 'O' => 'o'
  | 'P' => 'p' | 'Q' => 'q' | 'R' => 'r' | 'S' => 's' | 'T' => 't'
  | 'U' => 'u' | 'V' => 'v' | 'W' => 'w' | 'X' => 'x' | 'Y' => 'y'
  | 'Z' => 'z' | c => c

/-- ASCII `str.upper` on a single character. -/
def pyUpperChar (c : Char) : Char :=
  match c with
  | 'a' => 'A' | 'b' => 'B' | 'c' => 'C' | 'd' => 'D' | 'e' => 'E'
  | 'f' => 'F' | 'g' => 'G' | 'h' => 'H' | 'i' => 'I' | 'j' => 'J'
  | 'k' => 'K' | 'l' => 'L' | 'm' => 'M' | 'n' => 'N' | 'o' => 'O'
  | 'p' => 'P' | 'q' => 'Q' | 'r' => 'R' | 's' => 'S' | 't' => 'T'
  | 'u' => 'U' | 'v' => 'V' | 'w' => 'W' | 'x' => 'X' | 'y' => 'Y'
  | 'z' => 'Z' | c => c

/-- Python `str.lower()`. -/
def pyLower (s : String) : String := ⟨s.data.map pyLowerChar⟩

/-- Python `str.strip()` on a character list. -/
def pyStripL (l : List Char) : List Char :=
  ((l.dropWhile pyIsSpace).reverse.dropWhile pyIsSpace).reverse

/-- Python `str.strip()`. -/
def pyStrip (s : String) : String := ⟨pyStripL s.data⟩

/-- A regex word character (`\w` for ASCII input): letters, digits, `_`. -/
def isWordChar (c : Char) : Bool := c.isAlphanum || c = '_'

/-- Python `sep.join(parts)`. -/
def joinStrings (sep : String) : List String → String
  | [] => ""
  | [x] => x
  | x :: y :: tl => x ++ sep ++ joinStrings sep (y :: tl)

theorem pyLowerChar_space : ∀ c : Char, pyLowerChar c = ' ' ↔ c = ' ' := by
  intro c
  unfold pyLowerChar
  split <;> first | rfl | decide

theorem pyIsSpace_pyLowerChar (c : Char) : pyIsSpace (pyLowerChar c) = pyIsSpace c := by
  unfold pyLowerChar
  split <;> first | rfl | decide

theorem pyLowerChar_idem (c : Char) : pyLowerChar (pyLowerChar c) = pyLowerChar c := by
  have h : pyLowerChar c = c ∨ pyLowerChar (pyLowerChar c) = pyLowerChar c := by
    unfold pyLowerChar
    split <;> first | (left; rfl) | decide
  rcases h with h | h
  · rw [h]; exact h
  · exact h

theorem pyLower_idem (s : String) : pyLower (pyLower s) = pyLower s := by
  unfold pyLower
  cases s with
  | mk l =>
    simp only [List.map_map]
    congr 1
    exact List.map_congr_left (fun c _ => pyLowerChar_idem c)

theorem pyIsSpace_iff (c : Char) :
    pyIsSpace c = true ↔
      c = ' ' ∨ c = '\t' ∨ c = '\n' ∨ c = '\x0b' ∨ c = '\x0c' ∨ c = '\r' ∨
      c = '\x1c' ∨ c = '\x1d' ∨ c = '\x1e' ∨ c = '\x1f' := by
  simp [pyIsSpace, or_assoc]

theorem not_isWordChar_of_pyIsSpace {c : Char} (h : pyIsSpace c = true) :
    isWordChar c = false := by
  rcases (pyIsSpace_iff c).mp h with h | h | h | h | h | h | h | h | h | h <;>
    subst h <;> decide

/-! ### `src/safety.py` — the safety gate -/

namespace Safety

/-- `BLOCKED_KEYWORDS` from `safety.py` (lowercase, in source order). -/
def BLOCKED_KEYWORDS : List String :=
  ["weapon", "bomb", "explosive", "explicit", "porn", "pornography",
   "hate", "self-harm", "suicide", "kill", "murder", "drug",
   "narcotic", "terrorism", "racist", "slur"]

/-- Whether position `i` of `s` holds a word character (out of range:
not a word character). -/
def charIsWordAt (s : List Char) (i : Nat) : Bool :=
  match s[i]? with
  | some c => isWordChar c
  | none => false

/-- The regex `\b` word-boundary test at position `i` (between `s[i-1]`
and `s[i]`): exactly one of the two neighbouring positions holds a word
character, out-of-range positions counting as non-word. -/
def boundaryAt (s : List Char) (i : Nat) : Bool :=
  (if i = 0 then false else charIsWordAt s (i - 1)) != charIsWordAt s i

/-- Whether the literal keyword `kw` matches at position `i` of `s` with
`\b` boundaries on both sides — the semantics of
`re.search(rf"\b{re.escape(keyword)}\b", s)` succeeding at `i`. -/
def matchWholeAt (kw s : List Char) (i : Nat) : Bool :=
  decide (i + kw.length ≤ s.length) && ((s.drop i).take kw.length == kw)
    && boundaryAt s i && boundaryAt s (i + kw.length)

/-- Whether `re.search(rf"\b{re.escape(kw)}\b", s)` finds a match
anywhere in `s` (scanning every start position). -/
def searchWholeWord (kw s : List Char) : Bool :=
  (List.range (s.length + 1)).any (fun i => matchWholeAt kw s i)

/-- `is_safe_request` from `safety.py`: empty / whitespace-only input is
safe; otherwise the lowered text is scanned against each blocked keyword
with whole-word boundary matching, returning `false` on a match. -/
def is_safe_request (text : String) : Bool :=
  if text.data.all pyIsSpace then true
  else !(BLOCKED_KEYWORDS.any (fun kw => searchWholeWord kw.data (pyLower text).data))

/-- Claim-level, declarative reading of "the term occurs in the text as a
standalone word surrounded by word boundaries". -/
def OccursStandalone (t s : String) : Prop :=
  ∃ i, i + t.data.length ≤ s.data.length ∧
    (s.data.drop i).take t.data.length = t.data ∧
    boundaryAt s.data i = true ∧ boundaryAt s.data (i + t.data.length) = true

theorem searchWholeWord_iff (t s : String) :
    searchWholeWord t.data s.data = true ↔ OccursStandalone t s := by
  unfold searchWholeWord matchWholeAt
  rw [List.any_eq_true]
  constructor
  · rintro ⟨i, _, hmatch⟩
    simp only [Bool.and_eq_true, decide_eq_true_eq, beq_iff_eq] at hmatch
    exact ⟨i, hmatch.1.1.1, hmatch.1.1.2, hmatch.1.2, hmatch.2⟩
  · rintro ⟨i, hlen, hext, hb1, hb2⟩
    refine ⟨i, List.mem_range.mpr ?_, ?_⟩
    · omega
    · simp only [Bool.and_eq_true, decide_eq_true_eq, beq_iff_eq]
      exact ⟨⟨⟨hlen, hext⟩, hb1⟩, hb2⟩

theorem charIsWordAt_true {s : List Char} {i : Nat}
    (h : charIsWordAt s i = true) : ∃ c ∈ s, isWordChar c = true := by
  unfold charIsWordAt at h
  rcases hv : s[i]? with _ | c
  · rw [hv] at h; exact absurd h (by simp)
  · rw [hv] at h
    exact ⟨c, List.getElem?_mem hv, h⟩

/-- A whitespace-only text contains no word character after lowering, so
no blocked keyword can occur standalone in it. -/
theorem not_occursStandalone_of_all_space {text : String} {kw : String}
    (hsp : text.data.all pyIsSpace = true)
    (hocc : OccursStandalone kw (pyLower text)) : False := by
  rcases hocc with ⟨i, _, _, hb1, _⟩
  unfold boundaryAt at hb1
  have hword : ∃ c ∈ (pyLower text).data, isWordChar c = true := by
    rcases h1 : charIsWordAt (pyLower text).data i with _ | _
    · rcases h0 : (if i = 0 then false else charIsWordAt (pyLower text).data (i - 1)) with _ | _
      · rw [h0, h1] at hb1; exact absurd hb1 (by decide)
      · by_cases hi : i = 0 <;> simp [hi] at h0
        exact charIsWordAt_true h0
    · exact charIsWordAt_true h1
  rcases hword with ⟨c, hc, hwc⟩
  unfold pyLower at hc
  simp only [List.mem_map] at hc
  rcases hc with ⟨c0, hc0, rfl⟩
  have hs0 : pyIsSpace c0 = true := List.all_eq_true.mp hsp c0 hc0
  have : pyIsSpace (pyLowerChar c0) = true := by
    rw [pyIsSpace_pyLowerChar]; exact hs0
  rw [not_isWordChar_of_pyIsSpace this] at hwc
  exact absurd hwc (by decide)

/-- C2: for every blocked term, a standalone (word-bounded) occurrence in
the lowered text makes `is_safe_request` return `false`; if no blocked
term occurs standalone (in particular when blocked terms occur only as
substrings of longer words, where the boundary test fails), it returns
`true`. -/
theorem C2_blocked_whole_word (text : String) :
    (∀ kw ∈ BLOCKED_KEYWORDS, OccursStandalone kw (pyLower text) →
      is_safe_request text = false) ∧
    ((∀ kw ∈ BLOCKED_KEYWORDS, ¬ OccursStandalone kw (pyLower text)) →
      is_safe_request text = true) := by
  constructor
  · intro kw hkw hocc
    unfold is_safe_request
    rcases hsp : text.data.all pyIsSpace with _ | _
    · simp only [Bool.false_eq_true, if_false, Bool.not_eq_false']
      exact List.any_eq_true.mpr ⟨kw, hkw, (searchWholeWord_iff kw (pyLower text)).mpr hocc⟩
    · exact absurd (not_occursStandalone_of_all_space hsp hocc) (fun h => h)
  · intro hno
    unfold is_safe_request
    rcases hsp : text.data.all pyIsSpace with _ | _
    · simp only [Bool.false_eq_true, if_false, Bool.not_eq_true']
      rcases hany : BLOCKED_KEYWORDS.any
          (fun kw => searchWholeWord kw.data (pyLower text).data) with _ | _
      · rfl
      · rcases List.any_eq_true.mp hany with ⟨kw, hkw, hsearch⟩
        exact absurd ((searchWholeWord_iff kw (pyLower text)).mp hsearch) (hno kw hkw)
    · rfl

/-- Witness for C2: "kill" standalone in `" kill "` trips the gate, while
`"killjoy"`, where the blocked term "kill" occurs only as a substring of
a longer word, passes it. -/
theorem C2_blocked_whole_word_witness :
    is_safe_request " kill " = false ∧ is_safe_request "killjoy" = true := by
  constructor
  · exact (C2_blocked_whole_word " kill ").1 "kill" (by decide)
      ⟨1, by decide, by decide, by decide, by decide⟩
  · refine (C2_blocked_whole_word "killjoy").2 ?_
    intro kw hkw hocc
    have hs := (searchWholeWord_iff kw (pyLower "killjoy")).mpr hocc
    have hall : BLOCKED_KEYWORDS.all
        (fun k => !searchWholeWord k.data (pyLower "killjoy").data) = true := by decide
    have := List.all_eq_true.mp hall kw hkw
    rw [hs] at this
    exact absurd this (by decide)

/-- C3: empty or whitespace-only input passes the safety filter. -/
theorem C3_whitespace_safe (text : String)
    (h : text.data.all pyIsSpace = true) : is_safe_request text = true := by
  unfold is_safe_request
  rw [h]
  rfl

/-- Witness for C3 at the spec's own examples `""` and `"   "`. -/
theorem C3_whitespace_safe_witness :
    is_safe_request "" = true ∧ is_safe_request "   " = true :=
  ⟨C3_whitespace_safe "" (by decide), C3_whitespace_safe "   " (by decide)⟩

end Safety

/-! ### `src/word_bot.py` — the lexical entry resolver

The lexical knowledge base (NLTK WordNet) is an external collaborator:
`wn.synsets(word)` is modelled as an arbitrary ordered list of senses
passed to the resolver, as in the spec's `resolve_word(word, senses)`.
A `Synset` carries the data the resolver reads: a part-of-speech tag, a
definition, example sentences, and its lemma names (raw WordNet lemma
names, in which spaces appear as underscores — `lemma.name()`). -/

namespace WordBot

structure Synset where
  pos : String
  definition : String
  examples : List String
  lemmaNames : List String
deriving DecidableEq

structure WordEntry where
  word : String
  part_of_speech : String
  pronunciation : String
  definition : String
  examples : List String
  synonyms : List String
deriving DecidableEq

/-- `_POS_MAP` from `word_bot.py`. -/
def _POS_MAP : List (String × String) :=
  [("n", "noun"), ("v", "verb"), ("a", "adjective"),
   ("r", "adverb"), ("s", "adjective satellite")]

/-- `_pos_readable`: `_POS_MAP.get(wn_pos, "unknown")`. -/
def _pos_readable (wn_pos : String) : String :=
  (_POS_MAP.lookup wn_pos).getD "unknown"

/-- `name.replace("_", " ")` on a lemma name. -/
def replaceUnderscores (s : String) : String :=
  ⟨s.data.map (fun c => if c = '_' then ' ' else c)⟩

/-- The de-duplication loop of `define_word_json` (a `seen` set plus an
output list, keeping the first occurrence of each string). -/
def dedupSeen (seen : List String) : List String → List String
  | [] => []
  | a :: l => if a ∈ seen then dedupSeen seen l else a :: dedupSeen (a :: seen) l

/-- Strict lexicographic comparison of character lists by code point
(the comparison Python uses on `str`). -/
def strLtList : List Char → List Char → Bool
  | [], [] => false
  | [], _ :: _ => true
  | _ :: _, [] => false
  | a :: as, b :: bs => if a < b then true else if b < a then false else strLtList as bs

/-- `a <= b` on strings, Python style. -/
def strLeb (a b : String) : Bool := !(strLtList b.data a.data)

/-- Ordered insertion (structurally recursive, so that concrete entries
evaluate inside the kernel). -/
def insertSorted (a : String) : List String → List String
  | [] => [a]
  | b :: l => if strLeb a b then a :: b :: l else b :: insertSorted a l

/-- Python `sorted` on strings (lexicographic by code point; insertion
sort — the sorted inputs in this program are duplicate-free, so any
correct comparison sort agrees with Python's). -/
def sortStrings (l : List String) : List String := l.foldr insertSorted []

/-- `_collect_synonyms` from `word_bot.py`:
`sorted({lemma.name().replace("_", " ") for lemma in synset.lemmas()
if lemma.name().lower() != word.lower()})[:limit]`.
Note the exclusion test compares the raw lemma name (underscores intact)
against the query word, while the collected string has underscores
replaced by spaces. -/
def _collect_synonyms (synset : Synset) (word : String) (limit : Nat) : List String :=
  (sortStrings (dedupSeen []
    ((synset.lemmaNames.filter (fun n => !(pyLower n = pyLower word))).map
      replaceUnderscores))).take limit

/-- The example-backfill loop of `define_word_json` / `define_word`:
`for ss in synsets[1:4]: examples = ss.examples()[:2]; if examples: break`
(the accumulator is overwritten every iteration, and the loop stops at
the first sense with a non-empty example list). -/
def examplesLoop (acc : List String) : List Synset → List String
  | [] => acc
  | ss :: rest =>
    let e := ss.examples.take 2
    if e.isEmpty then examplesLoop e rest else e

/-- The synonym-extension loop of `define_word_json` / `define_word`:
`for ss in synsets[1:4]: synonyms += _collect_synonyms(ss, word)`. -/
def synonymsLoop (word : String) (init : List String) (l : List Synset) : List String :=
  l.foldl (fun acc ss => acc ++ _collect_synonyms ss word 3) init

/-- The fixed fallback definition used when a word has no senses. -/
def notFoundDefinition : String :=
  "No entry found. Check spelling or try a simpler term."

/-- `define_word_json` from `word_bot.py`, with the WordNet call
`wn.synsets(word)` abstracted into the `synsets` argument (the spec's
`resolve_word(word, senses)`).  The word is normalised
(`word.strip().lower()`); an empty sense list yields the not-found
entry; otherwise the primary sense is the first one, examples are
backfilled from `synsets[1:4]` when the primary has none, and synonyms
are extended from `synsets[1:4]`, de-duplicated and capped at 3, when
the primary contributes fewer than 2. -/
def define_word_json (w : String) (synsets : List Synset) : WordEntry :=
  let word := pyLower (pyStrip w)
  match synsets with
  | [] =>
    ⟨word, "unknown", "N/A", notFoundDefinition, [], []⟩
  | primary :: restAll =>
    let examples0 := primary.examples.take 2
    let examples :=
      if examples0.isEmpty then examplesLoop examples0 (restAll.take 3) else examples0
    let syns0 := _collect_synonyms primary word 3
    let synonyms :=
      if syns0.length < 2 then
        (dedupSeen [] (synonymsLoop word syns0 (restAll.take 3))).take 3
      else syns0
    ⟨word, _pos_readable primary.pos, "N/A", primary.definition, examples, synonyms⟩

/-- `_format_entry` from `word_bot.py`. -/
def _format_entry (word pos pron defn : String)
    (examples synonyms : List String) : String :=
  let examples_text :=
    if examples.isEmpty then "  - (no example available)"
    else joinStrings "\n" (examples.map (fun ex => "  - " ++ ex))
  let synonyms_text :=
    if synonyms.isEmpty then "(none)" else joinStrings ", " synonyms
  "[word]\n  " ++ (word ++
    ("\n[part_of_speech]\n  " ++ (pos ++
    ("\n[pronunciation]\n  " ++ (pron ++
    ("\n[definition]\n  " ++ (defn ++
    ("\n[examples]\n" ++ (examples_text ++
    ("\n[synonyms]\n  " ++ synonyms_text))))))))))

/-- `_format_not_found` from `word_bot.py`. -/
def _format_not_found (word : String) : String :=
  "[word]\n  " ++ word ++
    "\n[part_of_speech]\n  unknown" ++
    "\n[pronunciation]\n  N/A" ++
    "\n[definition]\n  " ++ notFoundDefinition ++
    "\n[examples]\n  - (none)" ++
    "\n[synonyms]\n  (none)"

/-- `define_word` from `word_bot.py` (the formatted-text entry point);
same selection logic as `define_word_json`, rendered through
`_format_entry` / `_format_not_found`. -/
def define_word (w : String) (synsets : List Synset) : String :=
  let word := pyLower (pyStrip w)
  if word.data.isEmpty then _format_not_found word
  else
    match synsets with
    | [] => _format_not_found word
    | primary :: restAll =>
      let examples0 := primary.examples.take 2
      let examples :=
        if examples0.isEmpty then examplesLoop examples0 (restAll.take 3) else examples0
      let syns0 := _collect_synonyms primary word 3
      let synonyms :=
        if syns0.length < 2 then
          (dedupSeen [] (synonymsLoop word syns0 (restAll.take 3))).take 3
        else syns0
      _format_entry word (_pos_readable primary.pos) "N/A" primary.definition
        examples synonyms

/-! Supporting lemmas about the resolver's list plumbing. -/

theorem mem_insertSorted {a b : String} {l : List String} :
    b ∈ insertSorted a l ↔ b = a ∨ b ∈ l := by
  induction l with
  | nil => simp [insertSorted]
  | cons c l ih =>
    unfold insertSorted
    by_cases h : strLeb a c = true
    · simp [h]
    · simp only [Bool.not_eq_true] at h
      simp [h, ih]
      tauto

theorem mem_sortStrings {s : String} {l : List String} :
    s ∈ sortStrings l ↔ s ∈ l := by
  induction l with
  | nil => simp [sortStrings]
  | cons a l ih =>
    unfold sortStrings at ih ⊢
    simp [List.foldr_cons, mem_insertSorted, ih]

theorem mem_dedupSeen {s : String} {seen l : List String}
    (h : s ∈ dedupSeen seen l) : s ∈ l := by
  induction l generalizing seen with
  | nil => simpa [dedupSeen] using h
  | cons a l ih =>
    unfold dedupSeen at h
    by_cases ha : a ∈ seen
    · simp only [if_pos ha] at h
      exact List.mem_cons_of_mem a (ih h)
    · simp only [if_neg ha, List.mem_cons] at h
      rcases h with h | h
      · exact h ▸ List.mem_cons_self a l
      · exact List.mem_cons_of_mem a (ih h)

theorem mem_collect_synonyms {ss : Synset} {word : String} {limit : Nat} {s : String}
    (h : s ∈ _collect_synonyms ss word limit) :
    ∃ name ∈ ss.lemmaNames, ¬ (pyLower name = pyLower word) ∧
      s = replaceUnderscores name := by
  unfold _collect_synonyms at h
  have h1 := mem_sortStrings.mp (List.take_subset limit _ h)
  have h2 := mem_dedupSeen h1
  rcases List.mem_map.mp h2 with ⟨name, hmem, rfl⟩
  rcases List.mem_filter.mp hmem with ⟨hname, hcond⟩
  refine ⟨name, hname, ?_, rfl⟩
  simpa using hcond

theorem mem_synonymsLoop {word : String} {init : List String} {l : List Synset}
    {s : String} (h : s ∈ synonymsLoop word init l) :
    s ∈ init ∨ ∃ ss ∈ l, s ∈ _collect_synonyms ss word 3 := by
  induction l generalizing init with
  | nil => exact Or.inl (by simpa [synonymsLoop] using h)
  | cons a l ih =>
    unfold synonymsLoop at h ih
    rw [List.foldl_cons] at h
    rcases ih h with h' | h'
    · rcases List.mem_append.mp h' with h'' | h''
      · exact Or.inl h''
      · exact Or.inr ⟨a, List.mem_cons_self a l, h''⟩
    · rcases h' with ⟨ss, hss, hmem⟩
      exact Or.inr ⟨ss, List.mem_cons_of_mem a hss, hmem⟩

/-- Every synonym in a resolved entry is the underscore-to-space image of
some lemma name (of some consulted sense) that survived the
query-word-exclusion filter. -/
theorem mem_synonyms_source {w : String} {synsets : List Synset} {s : String}
    (h : s ∈ (define_word_json w synsets).synonyms) :
    ∃ ss name, name ∈ Synset.lemmaNames ss ∧
      ¬ (pyLower name = pyLower (pyLower (pyStrip w))) ∧
      s = replaceUnderscores name := by
  match synsets with
  | [] => simp [define_word_json] at h
  | primary :: restAll =>
    simp only [define_word_json] at h
    by_cases hb :
        (_collect_synonyms primary (pyLower (pyStrip w)) 3).length < 2
    · rw [if_pos hb] at h
      have h1 := mem_dedupSeen (List.take_subset 3 _ h)
      rcases mem_synonymsLoop h1 with h2 | h2
      · rcases mem_collect_synonyms h2 with ⟨name, hn, hc, rfl⟩
        exact ⟨primary, name, hn, hc, rfl⟩
      · rcases h2 with ⟨ss, _, h3⟩
        rcases mem_collect_synonyms h3 with ⟨name, hn, hc, rfl⟩
        exact ⟨ss, name, hn, hc, rfl⟩
    · rw [if_neg hb] at h
      rcases mem_collect_synonyms h with ⟨name, hn, hc, rfl⟩
      exact ⟨primary, name, hn, hc, rfl⟩

theorem dropWhile_pyIsSpace_eq_self {l : List Char}
    (h : l.all (fun c => !pyIsSpace c) = true) : l.dropWhile pyIsSpace = l := by
  cases l with
  | nil => rfl
  | cons c l =>
    have := List.all_eq_true.mp h c (List.mem_cons_self c l)
    simp only [Bool.not_eq_true'] at this
    simp [List.dropWhile_cons, this]

theorem pyStrip_eq_self {w : String}
    (h : w.data.all (fun c => !pyIsSpace c) = true) : pyStrip w = w := by
  cases w with
  | mk l =>
    unfold pyStrip pyStripL
    have hrev : l.reverse.all (fun c => !pyIsSpace c) = true := by
      rw [List.all_eq_true] at h ⊢
      intro c hc
      exact h c (List.mem_reverse.mp hc)
    rw [dropWhile_pyIsSpace_eq_self h, dropWhile_pyIsSpace_eq_self hrev,
      List.reverse_reverse]

theorem replaceUnderscores_eq_self {s : String} (h : '_' ∉ s.data) :
    replaceUnderscores s = s := by
  cases s with
  | mk l =>
    unfold replaceUnderscores
    refine congrArg String.mk ?_
    have : l.map (fun c => if c = '_' then ' ' else c) = l.map id :=
      List.map_congr_left (fun c hc => by
        have : ¬ (c = '_') := fun hc' => h (by simpa [hc'] using hc)
        simp [this])
    simpa using this

theorem space_mem_replaceUnderscores {s : String} (h : '_' ∈ s.data) :
    ' ' ∈ (replaceUnderscores s).data := by
  cases s with
  | mk l =>
    unfold replaceUnderscores
    exact List.mem_map.mpr ⟨'_', h, by simp⟩

theorem space_mem_pyLower {s : String} : ' ' ∈ (pyLower s).data ↔ ' ' ∈ s.data := by
  cases s with
  | mk l =>
    unfold pyLower
    constructor
    · intro h
      rcases List.mem_map.mp h with ⟨c, hc, hlc⟩
      exact ((pyLowerChar_space c).mp hlc) ▸ hc
    · intro h
      exact List.mem_map.mpr ⟨' ', h, by decide⟩

/-- C1 does not hold for every query word: for a query containing a
space, a lemma name that writes that space as an underscore (WordNet's
convention for multiword lemmas) escapes the exclusion filter — the raw
name differs from the query — yet its underscore-to-space image is the
query word itself.  `define_word_json "ice cream"` with a sense whose
lemma is `"ice_cream"` returns the query word as a synonym. -/
theorem C1_counterexample :
    pyLower "ice cream" ∈
      (define_word_json "ice cream"
        [⟨"n", "d", [], ["ice_cream"]⟩]).synonyms.map pyLower := by decide

/-- C1, amended: for every query word containing no whitespace character
and every sense list, the resolved entry's synonyms never include the
query word itself, compared case-insensitively. -/
theorem C1_no_self_synonym (w : String) (synsets : List Synset)
    (hw : w.data.all (fun c => !pyIsSpace c) = true) :
    pyLower w ∉ (define_word_json w synsets).synonyms.map pyLower := by
  intro hmem
  rcases List.mem_map.mp hmem with ⟨s, hs, hlow⟩
  rcases mem_synonyms_source hs with ⟨ss, name, _, hfilter, rfl⟩
  rw [pyStrip_eq_self hw, pyLower_idem] at hfilter
  by_cases hu : '_' ∈ name.data
  · have h1 : ' ' ∈ (pyLower (replaceUnderscores name)).data :=
      space_mem_pyLower.mpr (space_mem_replaceUnderscores hu)
    rw [hlow] at h1
    have h2 : ' ' ∈ w.data := space_mem_pyLower.mp h1
    have := List.all_eq_true.mp hw ' ' h2
    exact absurd this (by decide)
  · rw [replaceUnderscores_eq_self hu] at hlow
    exact hfilter hlow

/-- Witness for the amended C1 at the whitespace-free query "cat". -/
theorem C1_no_self_synonym_witness :
    pyLower "cat" ∉
      (define_word_json "cat"
        [⟨"n", "feline mammal", ["the cat sat"],
          ["cat", "true_cat", "felis"]⟩]).synonyms.map pyLower :=
  C1_no_self_synonym "cat" _ (by decide)

/-- C4: an empty sense list yields the not-found entry: part of speech
"unknown", pronunciation "N/A", the fixed fallback definition, and empty
example and synonym lists. -/
theorem C4_not_found (w : String) :
    (define_word_json w []).part_of_speech = "unknown" ∧
    (define_word_json w []).pronunciation = "N/A" ∧
    (define_word_json w []).definition =
      "No entry found. Check spelling or try a simpler term." ∧
    (define_word_json w []).examples = [] ∧
    (define_word_json w []).synonyms = [] :=
  ⟨rfl, rfl, rfl, rfl, rfl⟩

theorem examplesLoop_length_le {acc : List String} {l : List Synset}
    (h : acc.length ≤ 2) : (examplesLoop acc l).length ≤ 2 := by
  induction l generalizing acc with
  | nil => simpa [examplesLoop] using h
  | cons ss rest ih =>
    unfold examplesLoop
    by_cases he : (ss.examples.take 2).isEmpty = true
    · simpa [he] using ih (by simp [List.length_take_le])
    · simpa [he] using List.length_take_le 2 ss.examples

/-- C5: every resolved entry has at most 2 examples and at most 3
synonyms, whatever the query and sense list. -/
theorem C5_caps (w : String) (synsets : List Synset) :
    (define_word_json w synsets).examples.length ≤ 2 ∧
    (define_word_json w synsets).synonyms.length ≤ 3 := by
  match synsets with
  | [] => exact ⟨by simp [define_word_json], by simp [define_word_json]⟩
  | primary :: restAll =>
    constructor
    · show (if (primary.examples.take 2).isEmpty then
          examplesLoop (primary.examples.take 2) (restAll.take 3)
        else primary.examples.take 2).length ≤ 2
      by_cases he : (primary.examples.take 2).isEmpty = true
      · simpa [he] using examplesLoop_length_le (by simp [List.length_take_le])
      · simpa [he] using List.length_take_le 2 primary.examples
    · show (if (_collect_synonyms primary (pyLower (pyStrip w)) 3).length < 2 then
          (dedupSeen [] (synonymsLoop (pyLower (pyStrip w))
            (_collect_synonyms primary (pyLower (pyStrip w)) 3) (restAll.take 3))).take 3
        else _collect_synonyms primary (pyLower (pyStrip w)) 3).length ≤ 3
      by_cases hb : (_collect_synonyms primary (pyLower (pyStrip w)) 3).length < 2
      · simpa [hb] using List.length_take_le 3 _
      · rw [if_neg hb]
        exact List.length_take_le 3 _

/-- The spec's wording of the example-selection rule (§4.2): up to 2
examples from the primary sense; if the primary has none, the first
up-to-2 examples of the first sense among `senses[1..3]` that has any;
examples from different senses are never merged. -/
def specExamples (primary : Synset) (rest : List Synset) : List String :=
  if primary.examples.isEmpty then
    match (rest.take 3).find? (fun ss => !ss.examples.isEmpty) with
    | some ss => ss.examples.take 2
    | none => []
  else primary.examples.take 2

theorem examplesLoop_eq_find (l : List Synset) :
    examplesLoop [] l =
      match l.find? (fun ss => !ss.examples.isEmpty) with
      | some ss => ss.examples.take 2
      | none => [] := by
  induction l with
  | nil => rfl
  | cons ss rest ih =>
    rcases he : ss.examples with _ | ⟨a, tl⟩
    · have hloop : examplesLoop [] (ss :: rest) = examplesLoop [] rest := by
        rw [examplesLoop]
        simp [he]
      rw [hloop, ih]
      rw [List.find?_cons_of_neg _ (by simp [he])]
    · have hloop : examplesLoop [] (ss :: rest) = ss.examples.take 2 := by
        rw [examplesLoop]
        simp [he]
      rw [hloop, List.find?_cons_of_pos _ (by simp [he])]

/-- C6: for every non-empty sense list, the entry's examples are the
first up-to-2 examples of the primary sense; if the primary has none,
the first up-to-2 examples of the first sense among `senses[1..3]` with
any examples, never merging examples of different senses. -/
theorem C6_example_selection (w : String) (primary : Synset) (rest : List Synset) :
    (define_word_json w (primary :: rest)).examples = specExamples primary rest := by
  show (if (primary.examples.take 2).isEmpty then
      examplesLoop (primary.examples.take 2) (rest.take 3)
    else primary.examples.take 2) = specExamples primary rest
  unfold specExamples
  rcases he : primary.examples with _ | ⟨a, tl⟩
  · simpa using examplesLoop_eq_find (rest.take 3)
  · simp

/-! Supporting lemmas for the synonym-assembly claim. -/

theorem dedupSeen_congr {seen₁ seen₂ : List String}
    (h : ∀ x, x ∈ seen₁ ↔ x ∈ seen₂) (l : List String) :
    dedupSeen seen₁ l = dedupSeen seen₂ l := by
  induction l generalizing seen₁ seen₂ with
  | nil => rfl
  | cons a l ih =>
    by_cases ha : a ∈ seen₁
    · rw [dedupSeen, if_pos ha, dedupSeen, if_pos ((h a).mp ha)]
      exact ih h
    · rw [dedupSeen, if_neg ha, dedupSeen, if_neg (fun hc => ha ((h a).mpr hc))]
      refine congrArg (a :: ·) (ih ?_)
      intro x
      simp [List.mem_cons, h x]

theorem dedupSeen_append (seen xs ys : List String) :
    dedupSeen seen (xs ++ ys) = dedupSeen seen xs ++ dedupSeen (xs ++ seen) ys := by
  induction xs generalizing seen with
  | nil => simp [dedupSeen]
  | cons a xs ih =>
    by_cases ha : a ∈ seen
    · rw [List.cons_append, dedupSeen, if_pos ha, dedupSeen, if_pos ha, ih]
      refine congrArg (dedupSeen seen xs ++ ·) (dedupSeen_congr ?_ ys)
      intro x
      constructor
      · intro hx
        rcases List.mem_append.mp hx with hx | hx
        · exact List.mem_append.mpr (Or.inl (List.mem_cons_of_mem a hx))
        · exact List.mem_append.mpr (Or.inr hx)
      · intro hx
        rcases List.mem_append.mp hx with hx | hx
        · rcases List.mem_cons.mp hx with rfl | hx
          · exact List.mem_append.mpr (Or.inr ha)
          · exact List.mem_append.mpr (Or.inl hx)
        · exact List.mem_append.mpr (Or.inr hx)
    · rw [List.cons_append, dedupSeen, if_neg ha, dedupSeen, if_neg ha, ih,
        List.cons_append]
      refine congrArg (fun t => a :: (dedupSeen (a :: seen) xs ++ t))
        (dedupSeen_congr ?_ ys)
      intro x
      simp only [List.mem_append, List.mem_cons, List.cons_append]
      tauto

theorem mem_dedupSeen_of {x : String} {seen l : List String}
    (hx : x ∈ l) (hs : x ∉ seen) : x ∈ dedupSeen seen l := by
  induction l generalizing seen with
  | nil => cases hx
  | cons a l ih =>
    by_cases ha : a ∈ seen
    · rw [dedupSeen, if_pos ha]
      rcases List.mem_cons.mp hx with rfl | hx'
      · exact absurd ha hs
      · exact ih hx' hs
    · rw [dedupSeen, if_neg ha]
      rcases List.mem_cons.mp hx with rfl | hx'
      · exact List.mem_cons_self x _
      · by_cases hxa : x = a
        · exact hxa ▸ List.mem_cons_self x _
        · exact List.mem_cons_of_mem a (ih hx' (by simp [hs, hxa]))

theorem not_mem_dedupSeen {x : String} {seen : List String} (l : List String)
    (hx : x ∈ seen) : x ∉ dedupSeen seen l := by
  induction l generalizing seen with
  | nil => simp [dedupSeen]
  | cons a l ih =>
    by_cases ha : a ∈ seen
    · rw [dedupSeen, if_pos ha]
      exact ih hx
    · rw [dedupSeen, if_neg ha]
      intro hmem
      rcases List.mem_cons.mp hmem with rfl | hmem
      · exact ha hx
      · exact ih (List.mem_cons_of_mem a hx) hmem

theorem nodup_dedupSeen (seen l : List String) : (dedupSeen seen l).Nodup := by
  induction l generalizing seen with
  | nil => simp [dedupSeen]
  | cons a l ih =>
    by_cases ha : a ∈ seen
    · rw [dedupSeen, if_pos ha]
      exact ih seen
    · rw [dedupSeen, if_neg ha]
      exact List.nodup_cons.mpr
        ⟨not_mem_dedupSeen l (List.mem_cons_self a seen), ih (a :: seen)⟩

theorem perm_insertSorted (a : String) (l : List String) :
    (insertSorted a l).Perm (a :: l) := by
  induction l with
  | nil => exact List.Perm.refl _
  | cons b l ih =>
    rw [insertSorted]
    by_cases h : strLeb a b = true
    · rw [if_pos h]
    · rw [if_neg h]
      exact (ih.cons b).trans (List.Perm.swap a b l)

theorem perm_sortStrings (l : List String) : (sortStrings l).Perm l := by
  induction l with
  | nil => exact List.Perm.refl _
  | cons a l ih =>
    show (insertSorted a (sortStrings l)).Perm (a :: l)
    exact (perm_insertSorted a (sortStrings l)).trans (ih.cons a)

/-- The spec's per-sense synonym extraction (§4.2): the sense's synonym
terms (lemma names with underscores written as spaces), excluding the
query word, de-duplicated, sorted alphabetically — with no per-sense
cap. -/
def specSenseSynonyms (word : String) (ss : Synset) : List String :=
  sortStrings (dedupSeen []
    ((ss.lemmaNames.filter (fun n => !(pyLower n = pyLower word))).map
      replaceUnderscores))

theorem nodup_specSenseSynonyms (word : String) (ss : Synset) :
    (specSenseSynonyms word ss).Nodup :=
  (List.Perm.nodup_iff (perm_sortStrings _)).mpr (nodup_dedupSeen [] _)

/-- The spec's synonym-assembly rule (§4.2): the primary sense's
synonyms sorted alphabetically, excluding the query word, capped at 3;
only if fewer than 2 result, the synonyms of `senses[1..3]` are appended
in sense order (each excluding the query word), the whole list is
de-duplicated preserving first-seen order, and capped at 3. -/
def specSynonyms (word : String) (primary : Synset) (rest : List Synset) : List String :=
  let base := (specSenseSynonyms word primary).take 3
  if base.length < 2 then
    (dedupSeen [] (base ++ (rest.take 3).flatMap (specSenseSynonyms word))).take 3
  else base

theorem take3_dedupSeen_append (P Q : List String)
    (h : 3 ≤ (dedupSeen [] P).length) :
    (dedupSeen [] (P ++ Q)).take 3 = (dedupSeen [] P).take 3 := by
  rw [dedupSeen_append, List.take_append_eq_append_take]
  have h0 : 3 - (dedupSeen [] P).length = 0 := by omega
  rw [h0, List.take_zero, List.append_nil]

/-- Capping one duplicate-free block at 3 before the global first-seen
de-duplication and final cap at 3 does not change the result. -/
theorem dedup_take_cap (A B C : List String) (hB : B.Nodup) :
    (dedupSeen [] (A ++ (B.take 3 ++ C))).take 3 =
      (dedupSeen [] (A ++ (B ++ C))).take 3 := by
  by_cases h : 3 ≤ (dedupSeen [] (A ++ B.take 3)).length
  · have e1 : A ++ (B.take 3 ++ C) = (A ++ B.take 3) ++ C := by
      rw [List.append_assoc]
    have e2 : A ++ (B ++ C) = (A ++ B.take 3) ++ (B.drop 3 ++ C) := by
      rw [List.append_assoc, ← List.append_assoc (B.take 3), List.take_append_drop]
    rw [e1, e2, take3_dedupSeen_append _ _ h, take3_dedupSeen_append _ _ h]
  · have hsub : ∀ x ∈ B.take 3, x ∈ dedupSeen [] (A ++ B.take 3) := fun x hx =>
      mem_dedupSeen_of (List.mem_append_right A hx) (List.not_mem_nil x)
    have hnd : (B.take 3).Nodup := List.Nodup.sublist (List.take_sublist 3 B) hB
    have hlen : (B.take 3).length ≤ (dedupSeen [] (A ++ B.take 3)).length := by
      calc (B.take 3).length = (B.take 3).toFinset.card :=
            (List.toFinset_card_of_nodup hnd).symm
        _ ≤ (dedupSeen [] (A ++ B.take 3)).toFinset.card :=
            Finset.card_le_card (fun x hx =>
              List.mem_toFinset.mpr (hsub x (List.mem_toFinset.mp hx)))
        _ ≤ _ := List.toFinset_card_le _
    have hmin := List.length_take 3 B
    have hBlen : B.length ≤ 3 := by omega
    rw [List.take_of_length_le hBlen]

theorem flatMap_cap (word : String) (A : List String) (ss : List Synset) :
    (dedupSeen [] (A ++ ss.flatMap
      (fun s => (specSenseSynonyms word s).take 3))).take 3 =
    (dedupSeen [] (A ++ ss.flatMap (specSenseSynonyms word))).take 3 := by
  induction ss generalizing A with
  | nil => rfl
  | cons s tl ih =>
    rw [List.flatMap_cons, List.flatMap_cons,
      dedup_take_cap A (specSenseSynonyms word s) _ (nodup_specSenseSynonyms word s),
      ← List.append_assoc, ← List.append_assoc]
    exact ih (A ++ specSenseSynonyms word s)

theorem synonymsLoop_eq_flatMap (word : String) (init : List String)
    (l : List Synset) :
    synonymsLoop word init l =
      init ++ l.flatMap (fun ss => _collect_synonyms ss word 3) := by
  induction l generalizing init with
  | nil => simp [synonymsLoop]
  | cons a l ih =>
    unfold synonymsLoop at ih ⊢
    rw [List.foldl_cons, ih, List.flatMap_cons, List.append_assoc]

/-- C7: for every non-empty sense list, the entry's synonyms follow the
spec's assembly rule: primary synonyms sorted alphabetically excluding
the query word and capped at 3; only when fewer than 2 result, synonyms
of `senses[1..3]` appended in order (each excluding the query word),
de-duplicated preserving first-seen order, capped at 3.  (The code also
caps each secondary sense's sorted contribution at 3; with the final cap
at 3 this is observationally irrelevant, as the proof shows.) -/
theorem C7_synonym_assembly (w : String) (primary : Synset) (rest : List Synset) :
    (define_word_json w (primary :: rest)).synonyms =
      specSynonyms (pyLower (pyStrip w)) primary rest := by
  show (if (_collect_synonyms primary (pyLower (pyStrip w)) 3).length < 2 then
      (dedupSeen [] (synonymsLoop (pyLower (pyStrip w))
        (_collect_synonyms primary (pyLower (pyStrip w)) 3) (rest.take 3))).take 3
    else _collect_synonyms primary (pyLower (pyStrip w)) 3) =
    specSynonyms (pyLower (pyStrip w)) primary rest
  unfold specSynonyms
  have hcol : ∀ s : Synset, _collect_synonyms s (pyLower (pyStrip w)) 3 =
      (specSenseSynonyms (pyLower (pyStrip w)) s).take 3 := fun s => rfl
  by_cases hb : (_collect_synonyms primary (pyLower (pyStrip w)) 3).length < 2
  · rw [if_pos hb, if_pos (by rw [← hcol]; exact hb)]
    rw [synonymsLoop_eq_flatMap, hcol]
    exact flatMap_cap (pyLower (pyStrip w)) _ (rest.take 3)
  · rw [if_neg hb, if_neg (by rw [← hcol]; exact hb)]
    exact hcol primary

end WordBot

/-! ### `src/image_bot.py` — the visual entry resolver

The classifier (torchvision ResNet-50) is an external collaborator: the
resolver receives the top-1 `(label, confidence)` pair, and the file
system / decoder / model are abstracted into an environment record.
Confidences are modelled as `ℚ`. -/

namespace ImageBot

structure ImageEntry where
  label : String
  description : String
  meaning : String
  confidence : ℚ

/-- Python `str.title()` on ASCII text: a letter is upper-cased when the
previous character is not a letter, lower-cased otherwise. -/
def pyTitleAux : Bool → List Char → List Char
  | _, [] => []
  | prev, c :: cs =>
    (if c.isAlpha then (if prev then pyLowerChar c else pyUpperChar c) else c) ::
      pyTitleAux c.isAlpha cs

/-- Python `str.title()`. -/
def pyTitle (s : String) : String := ⟨pyTitleAux false s.data⟩

/-- The fixed low-confidence description from `describe_image`. -/
def lowConfDescription : String :=
  "The classifier could not identify this image with high confidence."

/-- The fixed low-confidence suggestion from `describe_image`. -/
def lowConfSuggestion : String :=
  "Try uploading a clearer photo or a different angle."

/-- `_get_label_info` from `image_bot.py`: the hand-curated label table
becomes an association-list argument; labels not in it get the generic
templates (the second referencing the title-cased label). -/
def _get_label_info (table : List (String × String × String)) (label : String) :
    String × String :=
  match table.lookup label with
  | some dm => dm
  | none =>
    ("An image likely depicting: " ++ label ++ ".",
     "'" ++ pyTitle label ++
       "' is a concept or object recognized by the image classifier. Consult a reference for more context.")

/-- The result-assembly step of `describe_image` (lines 211–219): the
spec's `resolve_image(predictions, label_table)` applied to the top-1
prediction.  Below the 0.15 threshold the label is forced to
"unknown object" with the fixed messages; otherwise the label is looked
up in the table.  The confidence field is the raw classifier value in
both branches. -/
def resolve_image (label : String) (confidence : ℚ)
    (table : List (String × String × String)) : ImageEntry :=
  if confidence < 15/100 then
    ⟨"unknown object", lowConfDescription, lowConfSuggestion, confidence⟩
  else
    let dm := _get_label_info table label
    ⟨label, dm.1, dm.2, confidence⟩

/-- C8: confidence strictly below 0.15 forces the "unknown object" entry
with the fixed messages, whatever the table, while the reported
confidence stays the real value; at or above 0.15, a label present in
the table gets exactly the table's description/meaning, and an absent
label gets the generic templates referencing it. -/
theorem C8_confidence_threshold (label : String) (confidence : ℚ)
    (table : List (String × String × String)) :
    (confidence < 15/100 →
      resolve_image label confidence table =
        ⟨"unknown object", lowConfDescription, lowConfSuggestion, confidence⟩) ∧
    (15/100 ≤ confidence →
      (∀ d m, table.lookup label = some (d, m) →
        resolve_image label confidence table = ⟨label, d, m, confidence⟩) ∧
      (table.lookup label = none →
        resolve_image label confidence table =
          ⟨label, "An image likely depicting: " ++ label ++ ".",
            "'" ++ pyTitle label ++
              "' is a concept or object recognized by the image classifier. Consult a reference for more context.",
            confidence⟩)) := by
  refine ⟨fun hlt => ?_, fun hge => ⟨fun d m hl => ?_, fun hl => ?_⟩⟩
  · rw [resolve_image, if_pos hlt]
  · rw [resolve_image, if_neg (not_lt.mpr hge)]
    simp [_get_label_info, hl]
  · rw [resolve_image, if_neg (not_lt.mpr hge)]
    simp [_get_label_info, hl]

/-- Witness for C8: confidence 0.10 forces "unknown object" even though
the table knows the label; confidence 0.90 returns the table entry for a
present label and the generic templates for an absent one. -/
theorem C8_confidence_threshold_witness :
    resolve_image "tabby" (10/100)
        [("tabby", "a tabby cat", "a domestic cat pattern")] =
      ⟨"unknown object", lowConfDescription, lowConfSuggestion, 10/100⟩ ∧
    resolve_image "tabby" (90/100)
        [("tabby", "a tabby cat", "a domestic cat pattern")] =
      ⟨"tabby", "a tabby cat", "a domestic cat pattern", 90/100⟩ ∧
    resolve_image "quokka" (90/100) [] =
      ⟨"quokka", "An image likely depicting: quokka.",
        "'" ++ pyTitle "quokka" ++
          "' is a concept or object recognized by the image classifier. Consult a reference for more context.",
        90/100⟩ := by
  refine ⟨?_, ?_, ?_⟩
  · exact (C8_confidence_threshold "tabby" (10/100) _).1 (by norm_num)
  · exact ((C8_confidence_threshold "tabby" (90/100) _).2 (by norm_num)).1
      "a tabby cat" "a domestic cat pattern" rfl
  · exact ((C8_confidence_threshold "quokka" (90/100) _).2 (by norm_num)).2 rfl

end ImageBot

/-! ### Lemmas about `str.strip` used by the formatter round-trip. -/

theorem pyStripL_cons_space {c : Char} (l : List Char) (h : pyIsSpace c = true) :
    pyStripL (c :: l) = pyStripL l := by
  unfold pyStripL
  rw [List.dropWhile_cons, if_pos h]

theorem pyStripL_length_le (l : List Char) : (pyStripL l).length ≤ l.length := by
  unfold pyStripL
  have h1 := (List.dropWhile_suffix (l := (l.dropWhile pyIsSpace).reverse) pyIsSpace).length_le
  have h2 := (List.dropWhile_suffix (l := l) pyIsSpace).length_le
  simp only [List.length_reverse] at h1 ⊢
  omega

theorem pyStripL_eq_self {l : List Char}
    (hh : ∀ c, l.head? = some c → pyIsSpace c = false)
    (hl : ∀ c, l.getLast? = some c → pyIsSpace c = false) :
    pyStripL l = l := by
  cases l with
  | nil => rfl
  | cons a l' =>
    unfold pyStripL
    have ha : pyIsSpace a = false := hh a rfl
    rw [List.dropWhile_cons, if_neg (by simp [ha])]
    rcases hrev : (a :: l').reverse with _ | ⟨b, m⟩
    · exact absurd (congrArg List.length hrev) (by simp)
    · have hb : pyIsSpace b = false := by
        apply hl
        rw [← List.head?_reverse, hrev]
        rfl
      have hdrop : List.dropWhile pyIsSpace (b :: m) = b :: m := by
        rw [List.dropWhile_cons, if_neg (by simp [hb])]
      rw [hdrop, ← hrev, List.reverse_reverse]

theorem pyStripL_head {a : Char} {l' : List Char}
    (h : pyStripL (a :: l') = a :: l') : pyIsSpace a = false := by
  by_contra hc
  rw [Bool.not_eq_false] at hc
  have h1 := pyStripL_cons_space l' hc
  rw [h] at h1
  have h2 := pyStripL_length_le l'
  have := congrArg List.length h1
  simp only [List.length_cons] at this
  omega

theorem pyStripL_last {l : List Char} (h : pyStripL l = l) {c : Char}
    (hc : l.getLast? = some c) : pyIsSpace c = false := by
  by_contra hsp
  rw [Bool.not_eq_false] at hsp
  rcases hd : l.dropWhile pyIsSpace with _ | ⟨e, m⟩
  · have : pyStripL l = [] := by
      unfold pyStripL
      rw [hd]
      rfl
    rw [h] at this
    rw [this] at hc
    exact absurd hc (by simp)
  · rcases List.dropWhile_suffix (l := l) pyIsSpace with ⟨t, ht⟩
    have hlast : (l.dropWhile pyIsSpace).getLast? = some c := by
      rw [← ht, List.getLast?_append] at hc
      rcases hgl : (l.dropWhile pyIsSpace).getLast? with _ | d
      · rw [hd] at hgl
        exact absurd hgl (by simp)
      · rw [hgl] at hc
        simp only [Option.or_some] at hc
        exact hc
    have hrevhead : (l.dropWhile pyIsSpace).reverse.head? = some c := by
      rw [List.head?_reverse]
      exact hlast
    rcases hrev : (l.dropWhile pyIsSpace).reverse with _ | ⟨b, m'⟩
    · rw [hrev] at hrevhead
      exact absurd hrevhead (by simp)
    · have hbc : b = c := by
        rw [hrev] at hrevhead
        simpa using hrevhead
      have hdrop : List.dropWhile pyIsSpace (b :: m') = List.dropWhile pyIsSpace m' := by
        rw [List.dropWhile_cons, if_pos (hbc ▸ hsp)]
      have hlen1 : (pyStripL l).length ≤ m'.length := by
        unfold pyStripL
        rw [hrev, hdrop]
        simpa using (List.dropWhile_suffix (l := m') pyIsSpace).length_le
      have hlen2 : (l.dropWhile pyIsSpace).length ≤ l.length :=
        (List.dropWhile_suffix pyIsSpace).length_le
      have hlen3 : (l.dropWhile pyIsSpace).length = m'.length + 1 := by
        have h' := congrArg List.length hrev
        simpa using h'
      have hfin := congrArg List.length h
      omega

theorem pyStrip_leading_space (s : String) : pyStrip (" " ++ s) = pyStrip s := by
  show pyStrip ⟨' ' :: s.data⟩ = pyStrip s
  unfold pyStrip
  rw [show (⟨' ' :: s.data⟩ : String).data = ' ' :: s.data from rfl,
    pyStripL_cons_space s.data (by decide)]

theorem pyStrip_leading_two_space (s : String) : pyStrip ("  " ++ s) = pyStrip s := by
  show pyStrip ⟨' ' :: ' ' :: s.data⟩ = pyStrip s
  unfold pyStrip
  rw [show (⟨' ' :: ' ' :: s.data⟩ : String).data = ' ' :: ' ' :: s.data from rfl,
    pyStripL_cons_space _ (by decide), pyStripL_cons_space s.data (by decide)]

namespace ImageBot

/-- Python `str.splitlines()` (ASCII): a line ends at any character of
`isLineBreak`, with `"\r\n"` counting as a single break, and a trailing
break produces no empty last line. -/
def splitLines : List Char → List (List Char)
  | [] => []
  | '\r' :: '\n' :: cs => [] :: splitLines cs
  | c :: cs =>
    if isLineBreak c then [] :: splitLines cs
    else
      match splitLines cs with
      | [] => [[c]]
      | l :: ls => (c :: l) :: ls

/-- `line.startswith("[") and line.endswith("]")`. -/
def isBracketLine (l : List Char) : Bool :=
  (l.head? == some '[') && (l.getLast? == some ']')

/-- A character stripped by `line.strip("[]")`. -/
def isBracketChar (c : Char) : Bool := c = '[' || c = ']'

/-- `line.strip("[]")`. -/
def stripBrackets (l : List Char) : List Char :=
  ((l.dropWhile isBracketChar).reverse.dropWhile isBracketChar).reverse

/-- `result[key]` with the Python-dict default used by the parse loop
(the key is always set to `""` before being accumulated into). -/
def lookupD (m : List (String × String)) (k : String) : String :=
  (m.lookup k).getD ""

/-- `result[key] = value` on an insertion-ordered dict: overwrite in
place when the key exists, append otherwise. -/
def upsert (k v : String) : List (String × String) → List (String × String)
  | [] => [(k, v)]
  | (k', v') :: rest => if k' = k then (k, v) :: rest else (k', v') :: upsert k v rest

/-- One iteration of the parse loop in `describe_image_json`: a
`[name]` line opens a field (resetting it to `""`); any other line is
trimmed and space-joined into the current field, provided the current
key is truthy (Python's `elif current_key:` skips both `None` and the
empty key produced by a bare `[]` line). -/
def parseStep (st : Option String × List (String × String)) (line : List Char) :
    Option String × List (String × String) :=
  if isBracketLine line then
    (some ⟨stripBrackets line⟩, upsert ⟨stripBrackets line⟩ "" st.2)
  else
    match st.1 with
    | some k =>
      if k = "" then st
      else (some k, upsert k (pyStrip (lookupD st.2 k ++ " " ++ pyStrip ⟨line⟩)) st.2)
    | none => st

/-- The parsing loop of `describe_image_json` (lines 236–244): scan the
text's lines, `[name]` lines start fields, other lines accumulate into
the current field. -/
def parseEntry (text : String) : List (String × String) :=
  ((splitLines text.data).foldl parseStep
    ((none : Option String), ([] : List (String × String)))).2

/-- A decimal digit character (explicit table). -/
def digitChar : Nat → Char
  | 0 => '0' | 1 => '1' | 2 => '2' | 3 => '3' | 4 => '4'
  | 5 => '5' | 6 => '6' | 7 => '7' | 8 => '8' | _ => '9'

/-- Decimal digits of a natural number, least significant first (the
first argument is fuel, always ample at `n + 1`). -/
def natDigitsRevAux : Nat → Nat → List Char
  | 0, _ => []
  | f + 1, n => if n = 0 then [] else digitChar (n % 10) :: natDigitsRevAux f (n / 10)

/-- Decimal rendering of a natural number. -/
def natToStr (n : Nat) : String :=
  if n = 0 then "0" else ⟨(natDigitsRevAux (n + 1) n).reverse⟩

/-- Round to the nearest integer, ties to even — the rounding of
Python's fixed-precision float formatting. -/
def roundHalfEven (q : ℚ) : ℤ :=
  let f := ⌊q⌋
  if q - f < 1/2 then f
  else if (1 : ℚ)/2 < q - f then f + 1
  else if f % 2 = 0 then f else f + 1

/-- `f"{confidence:.2%}"`: the confidence as a percentage with two
decimals and a trailing percent sign (modelled over `ℚ`; Python formats
the binary double, which agrees except on representation-edge ties). -/
def renderPercent (q : ℚ) : String :=
  let n := roundHalfEven (q * 10000)
  let a := n.natAbs
  (if n < 0 then "-" else "") ++ natToStr (a / 100) ++ "." ++
    ⟨[digitChar (a / 10 % 10), digitChar (a % 10)]⟩ ++ "%"

/-- `_format_entry` from `image_bot.py` (the image-entry renderer). -/
def _format_entry (e : ImageEntry) : String :=
  "[label]\n  " ++ (e.label ++
    ("\n[description]\n  " ++ (e.description ++
    ("\n[meaning]\n  " ++ (e.meaning ++
    ("\n[confidence]\n  " ++ renderPercent e.confidence))))))

/-- `_format_error` from `image_bot.py`: the error entry has label
"unknown", the message as description, meaning "N/A" — and no
confidence section. -/
def _format_error (message : String) : String :=
  "[label]\n  unknown" ++
    ("\n[description]\n  " ++ (message ++ "\n[meaning]\n  N/A"))

/-- The index of the last occurrence of `c` in `l`, Python `str.rfind`. -/
def lastIndexOf (c : Char) (l : List Char) : Option Nat :=
  match l.reverse.findIdx? (fun x => x = c) with
  | some i => some (l.length - 1 - i)
  | none => none

/-- `os.path.splitext(p)[1]` (POSIX): the extension starts at the last
dot, provided it comes after the last slash and the name before it is
not all dots. -/
def splitextExt (p : String) : String :=
  let l := p.data
  let sep : Int := match lastIndexOf '/' l with | some i => (i : Int) | none => -1
  let dot : Int := match lastIndexOf '.' l with | some i => (i : Int) | none => -1
  if sep < dot then
    if ((l.drop (sep + 1).toNat).take (dot - sep - 1).toNat).any
        (fun ch => !(ch = '.')) then
      ⟨l.drop dot.toNat⟩
    else ""
  else ""

/-- `valid_extensions` from `describe_image`. -/
def validExtensions : List String := [".jpg", ".jpeg", ".png", ".bmp", ".gif", ".webp"]

/-- The external collaborators of `describe_image`: the file system
(`os.path.isfile`), the model loading plus image decoding step
(`_load_model(); Image.open(...).convert("RGB")`, whose exceptions are
caught together), and the preprocessing/inference step yielding the
top-1 `(label, confidence)` pair (its exceptions caught separately).
Errors carry the exception's message text. -/
structure ImageEnv where
  isFile : String → Bool
  loadImage : String → Except String Unit
  classify : String → Except String (String × ℚ)

/-- `describe_image` from `image_bot.py` over an abstract environment:
path validation (existence, then extension), then decoding, then
inference, each failure formatted through `_format_error`; a successful
classification is resolved against the label table and rendered. -/
def describe_image (env : ImageEnv) (table : List (String × String × String))
    (image_path : String) : String :=
  if !(env.isFile image_path) then
    _format_error ("File not found: " ++ image_path)
  else if !(validExtensions.contains (pyLower (splitextExt image_path))) then
    _format_error ("Unsupported image format '" ++ splitextExt image_path ++
      "'. Please use JPG or PNG.")
  else
    match env.loadImage image_path with
    | Except.error exc => _format_error ("Could not read image: " ++ exc)
    | Except.ok _ =>
      match env.classify image_path with
      | Except.error exc => _format_error ("Classification error: " ++ exc)
      | Except.ok (label, confidence) =>
        _format_entry (resolve_image label confidence table)

/-- `describe_image_json` from `image_bot.py`: format, then parse. -/
def describe_image_json (env : ImageEnv) (table : List (String × String × String))
    (image_path : String) : List (String × String) :=
  parseEntry (describe_image env table image_path)

end ImageBot

/-! ### The formatter round-trip (spec §4.4)

`parse_entry` is `describe_image_json`'s line scanner (`ImageBot.parseEntry`);
`format_entry` is `WordBot._format_entry` / `ImageBot._format_entry`.  The
lemmas below evaluate the scanner on formatted blocks whose field values are
free of line breaks. -/

namespace Roundtrip

open ImageBot

/-- A field value the block format can carry faithfully: no line-break
character (otherwise Python's `splitlines` cuts it) and already
stripped (the parser trims each line). -/
def cleanField (s : String) : Bool :=
  s.data.all (fun c => !isLineBreak c) && (pyStrip s == s)

/-- A list item (example sentence, synonym term) the format carries
faithfully: a clean field that is also non-empty. -/
def cleanItem (s : String) : Bool := cleanField s && !(s == "")

/-- A stripped, non-empty string: its first and last characters are not
whitespace. -/
def GoodVal (s : String) : Prop := pyStrip s = s ∧ s.data ≠ []

theorem goodVal_of_cleanItem {s : String} (h : cleanItem s = true) : GoodVal s := by
  unfold cleanItem cleanField at h
  simp only [Bool.and_eq_true, beq_iff_eq, Bool.not_eq_true'] at h
  refine ⟨h.1.2, fun hd => ?_⟩
  have : s = "" := by
    cases s with
    | mk l => cases hd; rfl
  rw [this] at h
  simpa using h.2

theorem cleanField_strip {s : String} (h : cleanField s = true) : pyStrip s = s := by
  unfold cleanField at h
  simp only [Bool.and_eq_true, beq_iff_eq] at h
  exact h.2

theorem noLB_of_cleanField {s : String} (h : cleanField s = true) :
    ∀ c ∈ s.data, isLineBreak c = false := by
  unfold cleanField at h
  simp only [Bool.and_eq_true] at h
  intro c hmem
  have := List.all_eq_true.mp h.1 c hmem
  simpa using this

theorem pyStripL_of_pyStrip {s : String} (h : pyStrip s = s) :
    pyStripL s.data = s.data := congrArg String.data h

theorem goodVal_head {s : String} (h : GoodVal s) :
    ∀ c, s.data.head? = some c → pyIsSpace c = false := by
  intro c hc
  rcases hd : s.data with _ | ⟨a, t⟩
  · rw [hd] at hc
    exact absurd hc (by simp)
  · have := pyStripL_of_pyStrip h.1
    rw [hd] at this hc
    have ha := pyStripL_head this
    have hac : a = c := by simpa using hc
    exact hac ▸ ha

theorem goodVal_last {s : String} (h : GoodVal s) :
    ∀ c, s.data.getLast? = some c → pyIsSpace c = false := by
  intro c hc
  exact pyStripL_last (pyStripL_of_pyStrip h.1) hc

/-- `splitlines` peels one `\n`-terminated line that contains no line
break of its own. -/
theorem splitLines_append_cons {x : List Char} (ys : List Char)
    (hx : ∀ c ∈ x, isLineBreak c = false) :
    splitLines (x ++ '\n' :: ys) = x :: splitLines ys := by
  induction x with
  | nil =>
    show splitLines ('\n' :: ys) = [] :: splitLines ys
    rw [splitLines, if_pos (by decide : isLineBreak '\n' = true)]
    exact fun _ h _ => absurd h (by decide)
  | cons c x' ih =>
    have hc : isLineBreak c = false := hx c (List.mem_cons_self c x')
    have hx' : ∀ d ∈ x', isLineBreak d = false := fun d hd =>
      hx d (List.mem_cons_of_mem c hd)
    rw [List.cons_append, splitLines, if_neg (by simp [hc]), ih hx']
    exact fun _ hcr _ => absurd hc (by rw [hcr]; decide)

/-- `splitlines` of a single non-empty line containing no line break. -/
theorem splitLines_single {x : List Char} (hne : x ≠ [])
    (hx : ∀ c ∈ x, isLineBreak c = false) : splitLines x = [x] := by
  induction x with
  | nil => exact absurd rfl hne
  | cons c x' ih =>
    have hc : isLineBreak c = false := hx c (List.mem_cons_self c x')
    have hx' : ∀ d ∈ x', isLineBreak d = false := fun d hd =>
      hx d (List.mem_cons_of_mem c hd)
    rw [splitLines, if_neg (by simp [hc])]
    · cases x' with
      | nil => rfl
      | cons d t => rw [ih (by simp) hx']
    · exact fun _ hcr _ => absurd hc (by rw [hcr]; decide)

/-- The parser's trim of a single-line field value. -/
theorem value_single (s : String) (h : pyStrip s = s) :
    pyStrip ("" ++ " " ++ pyStrip ("  " ++ s)) = s := by
  show pyStrip (" " ++ pyStrip ("  " ++ s)) = s
  rw [pyStrip_leading_two_space, h, pyStrip_leading_space, h]

theorem goodVal_strip_eq {s : String} (h : GoodVal s) : pyStrip s = s := h.1

/-- Stripping a stripped, non-empty value bracketed by text that keeps
its first and last characters is the identity: the generic step for
`X ++ " " ++ Y` with `X`, `Y` stripped and non-empty. -/
theorem pyStrip_append_goodVal {X Y : String} (hX : GoodVal X) (hY : GoodVal Y) :
    pyStrip (X ++ " " ++ Y) = X ++ " " ++ Y := by
  have hdata : (X ++ " " ++ Y).data = (X.data ++ [' ']) ++ Y.data := by
    simp [String.data_append]
  unfold pyStrip
  rw [hdata]
  refine congrArg String.mk (pyStripL_eq_self ?_ ?_)
  · intro c hc
    rcases hd : X.data with _ | ⟨a, t⟩
    · exact absurd hd hX.2
    · rw [hd] at hc
      have hca : a = c := by
        simpa using hc
      have ha : pyIsSpace a = false := goodVal_head hX a (by rw [hd]; rfl)
      exact hca ▸ ha
  · intro c hc
    rcases hgl : Y.data.getLast? with _ | d
    · rw [List.getLast?_eq_none_iff] at hgl
      exact absurd hgl hY.2
    · rw [List.getLast?_append, hgl] at hc
      simp only [Option.or_some] at hc
      exact goodVal_last hY c (by rw [hgl, hc])

/-- `GoodVal` is preserved by the parser's space-joining step. -/
theorem goodVal_append {X Y : String} (hX : GoodVal X) (hY : GoodVal Y) :
    GoodVal (X ++ " " ++ Y) := by
  refine ⟨pyStrip_append_goodVal hX hY, ?_⟩
  intro hd
  have : (X ++ " " ++ Y).data = (X.data ++ [' ']) ++ Y.data := by
    simp [String.data_append]
  rw [this] at hd
  have := congrArg List.length hd
  simp at this

/-- Generalisation of `pyStrip_append_goodVal`: any bracketed middle is
kept once the ends are stripped and non-empty. -/
theorem pyStrip_append_mid (mid : String) {X Y : String}
    (hX : GoodVal X) (hY : GoodVal Y) :
    pyStrip (X ++ mid ++ Y) = X ++ mid ++ Y := by
  have hdata : (X ++ mid ++ Y).data = (X.data ++ mid.data) ++ Y.data := by
    simp [String.data_append]
  unfold pyStrip
  rw [hdata]
  refine congrArg String.mk (pyStripL_eq_self ?_ ?_)
  · intro c hc
    rcases hd : X.data with _ | ⟨a, t⟩
    · exact absurd hd hX.2
    · rw [hd] at hc
      have hca : a = c := by simpa using hc
      have ha : pyIsSpace a = false := goodVal_head hX a (by rw [hd]; rfl)
      exact hca ▸ ha
  · intro c hc
    rcases hgl : Y.data.getLast? with _ | d
    · rw [List.getLast?_eq_none_iff] at hgl
      exact absurd hgl hY.2
    · rw [List.getLast?_append, hgl] at hc
      simp only [Option.or_some] at hc
      exact goodVal_last hY c (by rw [hgl, hc])

theorem goodVal_append_mid (mid : String) {X Y : String}
    (hX : GoodVal X) (hY : GoodVal Y) : GoodVal (X ++ mid ++ Y) := by
  refine ⟨pyStrip_append_mid mid hX hY, ?_⟩
  intro hd
  have hdata : (X ++ mid ++ Y).data = (X.data ++ mid.data) ++ Y.data := by
    simp [String.data_append]
  rw [hdata] at hd
  have := congrArg List.length hd
  rcases hx : X.data with _ | _
  · exact absurd hx hX.2
  · rw [hx] at this
    simp at this

theorem goodVal_join (sep : String) : ∀ (tl : List String) (s : String),
    GoodVal s → (∀ x ∈ tl, GoodVal x) → GoodVal (joinStrings sep (s :: tl)) := by
  intro tl
  induction tl with
  | nil => exact fun s hs _ => hs
  | cons y tl' ih =>
    intro s hs hall
    show GoodVal (s ++ sep ++ joinStrings sep (y :: tl'))
    exact goodVal_append_mid sep hs
      (ih y (hall y (List.mem_cons_self y tl'))
        (fun x hx => hall x (List.mem_cons_of_mem y hx)))

theorem joinStrings_cons_append (sep x y : String) (tl : List String) :
    joinStrings sep ((x ++ sep ++ y) :: tl) = x ++ sep ++ joinStrings sep (y :: tl) := by
  cases tl with
  | nil => rfl
  | cons t tl' => simp [joinStrings, String.append_assoc]

theorem lookupD_upsert (m : List (String × String)) (k v : String) :
    lookupD (upsert k v m) k = v := by
  induction m with
  | nil => simp [upsert, lookupD, List.lookup]
  | cons p rest ih =>
    rcases p with ⟨k', v'⟩
    by_cases hk : k' = k
    · rw [upsert, if_pos hk]
      simp [lookupD, List.lookup]
    · rw [upsert, if_neg hk]
      have : (k == k') = false := by
        simp [Ne.symm hk]
      simp only [lookupD, List.lookup, this]
      exact ih

theorem upsert_upsert (m : List (String × String)) (k v₁ v₂ : String) :
    upsert k v₂ (upsert k v₁ m) = upsert k v₂ m := by
  induction m with
  | nil => simp [upsert]
  | cons p rest ih =>
    rcases p with ⟨k', v'⟩
    by_cases hk : k' = k
    · rw [upsert, if_pos hk, upsert, if_pos rfl, upsert, if_pos hk]
    · rw [upsert, if_neg hk, upsert, if_neg hk, upsert, if_neg hk, ih]

theorem parseStep_value {k : String} (hk : ¬(k = "")) (m : List (String × String))
    (line : List Char) (hbr : isBracketLine line = false) :
    parseStep (some k, m) line =
      (some k, upsert k (pyStrip (lookupD m k ++ " " ++ pyStrip ⟨line⟩)) m) := by
  unfold parseStep
  rw [if_neg (by simp [hbr])]
  simp [hk]

/-- The value accumulated by the parse loop over successive lines of one
field: `value = (value + " " + line.strip()).strip()` per line. -/
def accValue (a : String) : List (List Char) → String
  | [] => a
  | l :: ls => accValue (pyStrip (a ++ " " ++ pyStrip ⟨l⟩)) ls

theorem foldl_value_lines : ∀ (ls : List (List Char)) (l : List Char) (k : String)
    (m : List (String × String)), ¬(k = "") → isBracketLine l = false →
    (∀ x ∈ ls, isBracketLine x = false) →
    List.foldl parseStep (some k, m) (l :: ls) =
      (some k, upsert k (accValue (lookupD m k) (l :: ls)) m) := by
  intro ls
  induction ls with
  | nil =>
    intro l k m hk hbr _
    rw [List.foldl_cons, parseStep_value hk m l hbr, List.foldl_nil]
    rfl
  | cons l₂ tl ih =>
    intro l k m hk hbr hall
    rw [List.foldl_cons, parseStep_value hk m l hbr,
      ih l₂ k _ hk (hall l₂ (List.mem_cons_self l₂ tl))
        (fun x hx => hall x (List.mem_cons_of_mem l₂ hx)),
      lookupD_upsert, upsert_upsert]
    rfl

theorem strip_dash_line (e : String) (he : GoodVal e) :
    pyStrip ("  - " ++ e) = "- " ++ e := by
  have h1 : pyStrip ("  - " ++ e) = pyStrip ("- " ++ e) := by
    show pyStrip ⟨' ' :: ' ' :: '-' :: ' ' :: e.data⟩ = pyStrip ⟨'-' :: ' ' :: e.data⟩
    unfold pyStrip
    rw [show (⟨' ' :: ' ' :: '-' :: ' ' :: e.data⟩ : String).data =
        ' ' :: ' ' :: '-' :: ' ' :: e.data from rfl,
      pyStripL_cons_space _ (by decide), pyStripL_cons_space _ (by decide)]
  rw [h1]
  exact pyStrip_append_goodVal (X := "-") ⟨by decide, by decide⟩ he

theorem goodVal_dash (e : String) (he : GoodVal e) : GoodVal ("- " ++ e) :=
  goodVal_append (X := "-") ⟨by decide, by decide⟩ he

theorem accValue_dash : ∀ (es : List String) (a : String), GoodVal a →
    (∀ e ∈ es, GoodVal e) →
    accValue a (es.map (fun e => ("  - " ++ e).data)) =
      joinStrings " " (a :: es.map (fun e => "- " ++ e)) := by
  intro es
  induction es with
  | nil => intro a _ _; rfl
  | cons e tl ih =>
    intro a ha hall
    have he : GoodVal e := hall e (List.mem_cons_self e tl)
    have htl : ∀ x ∈ tl, GoodVal x := fun x hx => hall x (List.mem_cons_of_mem e hx)
    rw [List.map_cons, accValue,
      show pyStrip ⟨("  - " ++ e).data⟩ = "- " ++ e from strip_dash_line e he,
      show pyStrip (a ++ " " ++ ("- " ++ e)) = a ++ " " ++ ("- " ++ e) from
        pyStrip_append_goodVal ha (goodVal_dash e he),
      ih (a ++ " " ++ ("- " ++ e)) (goodVal_append ha (goodVal_dash e he)) htl,
      List.map_cons, joinStrings, joinStrings_cons_append]

theorem noLB_dash {e : String} (h : ∀ c ∈ e.data, isLineBreak c = false) :
    ∀ c ∈ ("  - " ++ e).data, isLineBreak c = false := by
  intro c hmem
  simp only [show ("  - " ++ e).data = ' ' :: ' ' :: '-' :: ' ' :: e.data from rfl,
    List.mem_cons] at hmem
  rcases hmem with hm | hm | hm | hm | hm
  · rw [hm]; decide
  · rw [hm]; decide
  · rw [hm]; decide
  · rw [hm]; decide
  · exact h c hm

/-- Splitting the example block: one line per example. -/
theorem splitLines_exs : ∀ (exs : List String), exs ≠ [] →
    (∀ e ∈ exs, ∀ c ∈ e.data, isLineBreak c = false) → ∀ rest : List Char,
    splitLines ((joinStrings "\n" (exs.map (fun e => "  - " ++ e))).data ++ '\n' :: rest)
      = (exs.map (fun e => ("  - " ++ e).data)) ++ splitLines rest := by
  intro exs
  induction exs with
  | nil => intro h; exact absurd rfl h
  | cons e tl ih =>
    intro _ hnl rest
    have he : ∀ c ∈ e.data, isLineBreak c = false := hnl e (List.mem_cons_self e tl)
    have htl : ∀ x ∈ tl, ∀ c ∈ x.data, isLineBreak c = false :=
      fun x hx => hnl x (List.mem_cons_of_mem e hx)
    cases tl with
    | nil =>
      rw [List.map_cons, List.map_nil,
        show joinStrings "\n" ["  - " ++ e] = "  - " ++ e from rfl,
        splitLines_append_cons rest (noLB_dash he)]
      rfl
    | cons e₂ tl₂ =>
      have hjoin : (joinStrings "\n" (("  - " ++ e) :: ("  - " ++ e₂) ::
          tl₂.map (fun x => "  - " ++ x))).data ++ '\n' :: rest =
          ("  - " ++ e).data ++ '\n' ::
            ((joinStrings "\n" (("  - " ++ e₂) :: tl₂.map (fun x => "  - " ++ x))).data
              ++ '\n' :: rest) := by
        show ((("  - " ++ e) ++ "\n" ++ _).data ++ _ : List Char) = _
        simp [String.data_append, List.append_assoc]
      rw [List.map_cons, List.map_cons, hjoin,
        splitLines_append_cons _ (noLB_dash he),
        show ("  - " ++ e₂) :: List.map (fun x => "  - " ++ x) tl₂ =
          (e₂ :: tl₂).map (fun x => "  - " ++ x) from rfl,
        ih (by simp) htl rest]
      rfl

theorem noLB_indent {s : String} (h : ∀ c ∈ s.data, isLineBreak c = false) :
    ∀ c ∈ ("  " ++ s).data, isLineBreak c = false := by
  intro c hmem
  simp only [show ("  " ++ s).data = ' ' :: ' ' :: s.data from rfl,
    List.mem_cons] at hmem
  rcases hmem with hm | hm | hm
  · rw [hm]; decide
  · rw [hm]; decide
  · exact h c hm

theorem noLB_join (sep : String) (hsep : ∀ c ∈ sep.data, isLineBreak c = false) :
    ∀ (l : List String), (∀ x ∈ l, ∀ c ∈ x.data, isLineBreak c = false) →
    ∀ c ∈ (joinStrings sep l).data, isLineBreak c = false := by
  intro l
  induction l with
  | nil => intro _ c hc; cases hc
  | cons x tl ih =>
    intro hall c hmem
    cases tl with
    | nil => exact hall x (List.mem_cons_self x []) c hmem
    | cons y tl' =>
      rw [show (joinStrings sep (x :: y :: tl')).data =
        (x.data ++ sep.data) ++ (joinStrings sep (y :: tl')).data by
          show (x ++ sep ++ joinStrings sep (y :: tl')).data = _
          simp [String.data_append]] at hmem
      rcases List.mem_append.mp hmem with hm | hm
      · rcases List.mem_append.mp hm with hm' | hm'
        · exact hall x (List.mem_cons_self x _) c hm'
        · exact hsep c hm'
      · exact ih (fun z hz => hall z (List.mem_cons_of_mem x hz)) c hm

/-- The parse fold over the first nine lines of a word entry (pure
computation: every branch condition is concrete). -/
theorem fold_word_prefix (word pos pron defn : String) :
    List.foldl parseStep ((none : Option String), ([] : List (String × String)))
      [("[word]" : String).data, ("  " ++ word).data,
       ("[part_of_speech]" : String).data, ("  " ++ pos).data,
       ("[pronunciation]" : String).data, ("  " ++ pron).data,
       ("[definition]" : String).data, ("  " ++ defn).data,
       ("[examples]" : String).data]
    = (some "examples",
       [("word", pyStrip ("" ++ " " ++ pyStrip ("  " ++ word))),
        ("part_of_speech", pyStrip ("" ++ " " ++ pyStrip ("  " ++ pos))),
        ("pronunciation", pyStrip ("" ++ " " ++ pyStrip ("  " ++ pron))),
        ("definition", pyStrip ("" ++ " " ++ pyStrip ("  " ++ defn))),
        ("examples", "")]) := rfl

/-- The parse fold over the example block. -/
theorem fold_ex_seg (M : List (String × String)) (hM : lookupD M "examples" = "")
    (exs : List String) (hgood : ∀ e ∈ exs, GoodVal e) :
    List.foldl parseStep (some "examples", M)
      (if exs.isEmpty then [("  - (no example available)" : String).data]
       else exs.map (fun e => ("  - " ++ e).data))
    = (some "examples",
       upsert "examples"
         (if exs.isEmpty then "- (no example available)"
          else joinStrings " " (exs.map (fun e => "- " ++ e))) M) := by
  rcases exs with _ | ⟨e, es⟩
  · show List.foldl parseStep (some "examples", M)
        [("  - (no example available)" : String).data] = _
    rw [List.foldl_cons,
      parseStep_value (by decide) M ("  - (no example available)" : String).data rfl,
      List.foldl_nil, hM]
    rfl
  · have hge : GoodVal e := hgood e (List.mem_cons_self e es)
    have hges : ∀ x ∈ es, GoodVal x := fun x hx => hgood x (List.mem_cons_of_mem e hx)
    show List.foldl parseStep (some "examples", M)
        (("  - " ++ e).data :: es.map (fun x => ("  - " ++ x).data)) = _
    rw [foldl_value_lines (es.map (fun x => ("  - " ++ x).data)) ("  - " ++ e).data
        "examples" M (by decide) rfl
        (by
          intro x hx
          rcases List.mem_map.mp hx with ⟨x', _, rfl⟩
          rfl),
      hM]
    have hv : accValue "" (("  - " ++ e).data :: es.map (fun x => ("  - " ++ x).data)) =
        joinStrings " " (("- " ++ e) :: es.map (fun x => "- " ++ x)) := by
      rw [accValue, show pyStrip ⟨("  - " ++ e).data⟩ = "- " ++ e from
          strip_dash_line e hge,
        show pyStrip ("" ++ " " ++ ("- " ++ e)) = "- " ++ e from (by
          show pyStrip (" " ++ ("- " ++ e)) = "- " ++ e
          rw [pyStrip_leading_space]
          exact (goodVal_dash e hge).1),
        accValue_dash es ("- " ++ e) (goodVal_dash e hge) hges]
    rw [hv]
    rfl

/-- The parse fold over the two final synonym lines. -/
theorem fold_syn_tail (st1 : Option String) (M : List (String × String)) (SYN : String) :
    List.foldl parseStep (st1, M)
      [("[synonyms]" : String).data, ("  " ++ SYN).data]
    = (some "synonyms",
       upsert "synonyms" (pyStrip ("" ++ " " ++ pyStrip ("  " ++ SYN)))
         (upsert "synonyms" "" M)) := by
  rw [List.foldl_cons,
    show parseStep (st1, M) (("[synonyms]" : String).data) =
      (some "synonyms", upsert "synonyms" "" M) from rfl,
    List.foldl_cons,
    parseStep_value (by decide) (upsert "synonyms" "" M) (("  " ++ SYN).data) rfl,
    List.foldl_nil, lookupD_upsert]

theorem cleanItem_field {s : String} (h : cleanItem s = true) : cleanField s = true := by
  unfold cleanItem at h
  simp only [Bool.and_eq_true] at h
  exact h.1

/-- Parsing a formatted word entry whose field values are clean recovers
every field: the four scalar fields verbatim, the examples collapsed
into one `"- "`-prefixed space-joined string, the synonyms as their
comma-joined line. -/
theorem parse_format_entry (word pos pron defn : String) (exs syns : List String)
    (hw : cleanField word = true) (hp : cleanField pos = true)
    (hr : cleanField pron = true) (hd : cleanField defn = true)
    (he : exs.all cleanItem = true) (hs : syns.all cleanItem = true) :
    parseEntry (WordBot._format_entry word pos pron defn exs syns) =
      [("word", word), ("part_of_speech", pos), ("pronunciation", pron),
       ("definition", defn),
       ("examples", if exs.isEmpty then "- (no example available)"
          else joinStrings " " (exs.map (fun e => "- " ++ e))),
       ("synonyms", if syns.isEmpty then "(none)" else joinStrings ", " syns)] := by
  have hgood_ex : ∀ e ∈ exs, GoodVal e := fun e hmem =>
    goodVal_of_cleanItem (List.all_eq_true.mp he e hmem)
  have hnl_ex : ∀ e ∈ exs, ∀ c ∈ e.data, isLineBreak c = false := fun e hmem =>
    noLB_of_cleanField (cleanItem_field (List.all_eq_true.mp he e hmem))
  have hgood_sy : ∀ x ∈ syns, GoodVal x := fun x hmem =>
    goodVal_of_cleanItem (List.all_eq_true.mp hs x hmem)
  have hnl_sy : ∀ x ∈ syns, ∀ c ∈ x.data, isLineBreak c = false := fun x hmem =>
    noLB_of_cleanField (cleanItem_field (List.all_eq_true.mp hs x hmem))
  have hshape : (WordBot._format_entry word pos pron defn exs syns).data =
      ("[word]" : String).data ++ '\n' ::
      (("  " ++ word).data ++ '\n' ::
      (("[part_of_speech]" : String).data ++ '\n' ::
      (("  " ++ pos).data ++ '\n' ::
      (("[pronunciation]" : String).data ++ '\n' ::
      (("  " ++ pron).data ++ '\n' ::
      (("[definition]" : String).data ++ '\n' ::
      (("  " ++ defn).data ++ '\n' ::
      (("[examples]" : String).data ++ '\n' ::
      ((if exs.isEmpty then "  - (no example available)"
          else joinStrings "\n" (exs.map (fun ex => "  - " ++ ex))).data ++ '\n' ::
      (("[synonyms]" : String).data ++ '\n' ::
      ("  " ++ (if syns.isEmpty then "(none)" else joinStrings ", " syns)).data)))))))))) :=
    rfl
  have hSYNnl : ∀ c ∈ (if syns.isEmpty then "(none)"
      else joinStrings ", " syns).data, isLineBreak c = false := by
    rcases syns with _ | ⟨s0, ss⟩
    · decide
    · exact noLB_join ", " (by decide) (s0 :: ss) hnl_sy
  have hrest : splitLines (("[synonyms]" : String).data ++ '\n' ::
      ("  " ++ (if syns.isEmpty then "(none)" else joinStrings ", " syns)).data) =
      [("[synonyms]" : String).data,
       ("  " ++ (if syns.isEmpty then "(none)" else joinStrings ", " syns)).data] := by
    rw [splitLines_append_cons _ (by decide),
      splitLines_single (by simp [show ("  " ++ (if syns.isEmpty then "(none)"
          else joinStrings ", " syns)).data = ' ' :: ' ' :: (if syns.isEmpty then "(none)"
          else joinStrings ", " syns).data from rfl])
        (noLB_indent hSYNnl)]
  have hexsplit : splitLines ((if exs.isEmpty then "  - (no example available)"
      else joinStrings "\n" (exs.map (fun ex => "  - " ++ ex))).data ++ '\n' ::
      (("[synonyms]" : String).data ++ '\n' ::
       ("  " ++ (if syns.isEmpty then "(none)" else joinStrings ", " syns)).data)) =
      (if exs.isEmpty then [("  - (no example available)" : String).data]
       else exs.map (fun e => ("  - " ++ e).data)) ++
      [("[synonyms]" : String).data,
       ("  " ++ (if syns.isEmpty then "(none)" else joinStrings ", " syns)).data] := by
    rcases exs with _ | ⟨e, es⟩
    · show splitLines (("  - (no example available)" : String).data ++ '\n' :: _) = _
      rw [splitLines_append_cons _ (by decide), hrest]
      rfl
    · show splitLines ((joinStrings "\n" ((e :: es).map (fun ex => "  - " ++ ex))).data
          ++ '\n' :: _) = _
      rw [splitLines_exs (e :: es) (by simp) hnl_ex _, hrest]
      rfl
  have hlines : splitLines (WordBot._format_entry word pos pron defn exs syns).data =
      [("[word]" : String).data, ("  " ++ word).data,
       ("[part_of_speech]" : String).data, ("  " ++ pos).data,
       ("[pronunciation]" : String).data, ("  " ++ pron).data,
       ("[definition]" : String).data, ("  " ++ defn).data,
       ("[examples]" : String).data] ++
      ((if exs.isEmpty then [("  - (no example available)" : String).data]
        else exs.map (fun e => ("  - " ++ e).data)) ++
       [("[synonyms]" : String).data,
        ("  " ++ (if syns.isEmpty then "(none)" else joinStrings ", " syns)).data]) := by
    rw [hshape,
      splitLines_append_cons _ (by decide),
      splitLines_append_cons _ (noLB_indent (noLB_of_cleanField hw)),
      splitLines_append_cons _ (by decide),
      splitLines_append_cons _ (noLB_indent (noLB_of_cleanField hp)),
      splitLines_append_cons _ (by decide),
      splitLines_append_cons _ (noLB_indent (noLB_of_cleanField hr)),
      splitLines_append_cons _ (by decide),
      splitLines_append_cons _ (noLB_indent (noLB_of_cleanField hd)),
      splitLines_append_cons _ (by decide),
      hexsplit]
    rfl
  have hsynval : pyStrip ("" ++ " " ++ pyStrip ("  " ++
      (if syns.isEmpty then "(none)" else joinStrings ", " syns))) =
      (if syns.isEmpty then "(none)" else joinStrings ", " syns) := by
    rcases syns with _ | ⟨s0, ss⟩
    · rfl
    · show pyStrip ("" ++ " " ++ pyStrip ("  " ++ joinStrings ", " (s0 :: ss))) = _
      exact value_single _ (goodVal_join ", " ss s0
        (hgood_sy s0 (List.mem_cons_self s0 ss))
        (fun x hx => hgood_sy x (List.mem_cons_of_mem s0 hx))).1
  unfold parseEntry
  rw [hlines, List.foldl_append, List.foldl_append, fold_word_prefix,
    fold_ex_seg
      [("word", pyStrip ("" ++ " " ++ pyStrip ("  " ++ word))),
       ("part_of_speech", pyStrip ("" ++ " " ++ pyStrip ("  " ++ pos))),
       ("pronunciation", pyStrip ("" ++ " " ++ pyStrip ("  " ++ pron))),
       ("definition", pyStrip ("" ++ " " ++ pyStrip ("  " ++ defn))),
       ("examples", "")] rfl exs hgood_ex, fold_syn_tail]
  show [("word", pyStrip ("" ++ " " ++ pyStrip ("  " ++ word))),
       ("part_of_speech", pyStrip ("" ++ " " ++ pyStrip ("  " ++ pos))),
       ("pronunciation", pyStrip ("" ++ " " ++ pyStrip ("  " ++ pron))),
       ("definition", pyStrip ("" ++ " " ++ pyStrip ("  " ++ defn))),
       ("examples", if exs.isEmpty then "- (no example available)"
          else joinStrings " " (exs.map (fun e => "- " ++ e))),
       ("synonyms", pyStrip ("" ++ " " ++ pyStrip ("  " ++
          (if syns.isEmpty then "(none)" else joinStrings ", " syns))))] = _
  rw [value_single word (cleanField_strip hw), value_single pos (cleanField_strip hp),
    value_single pron (cleanField_strip hr), value_single defn (cleanField_strip hd),
    hsynval]

/-- All fields of a resolved word entry are clean (carried faithfully by
the text block format). -/
def cleanEntry (e : WordBot.WordEntry) : Bool :=
  cleanField e.word && cleanField e.part_of_speech && cleanField e.pronunciation &&
    cleanField e.definition && e.examples.all cleanItem && e.synonyms.all cleanItem

/-- C9, amended: parsing a formatted entry recovers each field's textual
content provided the field values are clean (no line-break characters;
list items trimmed and non-empty) — scalar fields verbatim, examples
collapsed into one joined string; in particular the entry formatted for
the word "dog" parses back to "dog" under the key "word" whenever the
resolved entry is clean. -/
theorem C9_round_trip :
    (∀ (word pos pron defn : String) (exs syns : List String),
      cleanField word = true → cleanField pos = true → cleanField pron = true →
      cleanField defn = true → exs.all cleanItem = true → syns.all cleanItem = true →
      parseEntry (WordBot._format_entry word pos pron defn exs syns) =
        [("word", word), ("part_of_speech", pos), ("pronunciation", pron),
         ("definition", defn),
         ("examples", if exs.isEmpty then "- (no example available)"
            else joinStrings " " (exs.map (fun e => "- " ++ e))),
         ("synonyms", if syns.isEmpty then "(none)" else joinStrings ", " syns)]) ∧
    (∀ synsets : List WordBot.Synset,
      cleanEntry (WordBot.define_word_json "dog" synsets) = true →
      (parseEntry (WordBot.define_word "dog" synsets)).lookup "word" = some "dog") := by
  constructor
  · exact fun word pos pron defn exs syns hw hp hr hd he hs =>
      parse_format_entry word pos pron defn exs syns hw hp hr hd he hs
  · intro synsets hcl
    rcases synsets with _ | ⟨primary, rest⟩
    · decide
    · simp only [cleanEntry, Bool.and_eq_true] at hcl
      obtain ⟨⟨⟨⟨⟨h1, h2⟩, h3⟩, h4⟩, h5⟩, h6⟩ := hcl
      have hdw : WordBot.define_word "dog" (primary :: rest) =
          WordBot._format_entry
            (WordBot.define_word_json "dog" (primary :: rest)).word
            (WordBot.define_word_json "dog" (primary :: rest)).part_of_speech
            (WordBot.define_word_json "dog" (primary :: rest)).pronunciation
            (WordBot.define_word_json "dog" (primary :: rest)).definition
            (WordBot.define_word_json "dog" (primary :: rest)).examples
            (WordBot.define_word_json "dog" (primary :: rest)).synonyms := rfl
      rw [hdw, parse_format_entry _ _ _ _ _ _ h1 h2 h3 h4 h5 h6]
      rfl

/-- Witness for C9 at a concrete clean entry and concrete senses. -/
theorem C9_round_trip_witness :
    parseEntry (WordBot._format_entry "dog" "noun" "N/A" "a domesticated canid"
      ["the dog barked"] ["domestic dog"]) =
      [("word", "dog"), ("part_of_speech", "noun"), ("pronunciation", "N/A"),
       ("definition", "a domesticated canid"), ("examples", "- the dog barked"),
       ("synonyms", "domestic dog")] ∧
    (parseEntry (WordBot.define_word "dog"
      [⟨"n", "a domesticated canid", ["the dog barked"], ["domestic_dog"]⟩])).lookup
        "word" = some "dog" := by
  constructor
  · exact C9_round_trip.1 "dog" "noun" "N/A" "a domesticated canid"
      ["the dog barked"] ["domestic dog"] (by decide) (by decide) (by decide)
      (by decide) (by decide) (by decide)
  · exact C9_round_trip.2
      [⟨"n", "a domesticated canid", ["the dog barked"], ["domestic_dog"]⟩] (by decide)

/-- C9 fails as stated for arbitrary senses: a definition containing a
line that looks like a `[word]` header re-opens that field during
parsing, so the round trip does not return "dog". -/
theorem C9_counterexample :
    ¬ ((parseEntry (WordBot.define_word "dog"
        [⟨"n", "bad\n[word]\n x", [], []⟩])).lookup "word" = some "dog") := by decide

/-! Machinery for the error-entry claim. -/

theorem digitChar_not_lb (k : Nat) : isLineBreak (digitChar k) = false := by
  unfold digitChar
  split <;> decide

theorem natDigitsRevAux_not_lb : ∀ (f n : Nat), ∀ c ∈ natDigitsRevAux f n,
    isLineBreak c = false := by
  intro f
  induction f with
  | zero => intro n c hc; cases hc
  | succ f ih =>
    intro n c hc
    rw [natDigitsRevAux] at hc
    by_cases hn : n = 0
    · rw [if_pos hn] at hc
      cases hc
    · rw [if_neg hn] at hc
      rcases List.mem_cons.mp hc with rfl | hc'
      · exact digitChar_not_lb (n % 10)
      · exact ih (n / 10) c hc'

theorem natToStr_noLB (n : Nat) : ∀ c ∈ (natToStr n).data, isLineBreak c = false := by
  unfold natToStr
  by_cases hn : n = 0
  · rw [if_pos hn]
    decide
  · rw [if_neg hn]
    intro c hmem
    exact natDigitsRevAux_not_lb (n + 1) n c (List.mem_reverse.mp hmem)

theorem renderPercent_noLB (q : ℚ) :
    ∀ c ∈ (renderPercent q).data, isLineBreak c = false := by
  unfold renderPercent
  intro c hmem
  simp only [String.data_append, List.mem_append] at hmem
  rcases hmem with ((((hm | hm) | hm) | hm) | hm)
  · by_cases hneg : roundHalfEven (q * 10000) < 0
    · rw [if_pos hneg] at hm
      have hm2 : c ∈ ['-'] := hm
      simp only [List.mem_singleton] at hm2
      rw [hm2]; decide
    · rw [if_neg hneg] at hm
      have hm2 : c ∈ ([] : List Char) := hm
      exact absurd hm2 (List.not_mem_nil c)
  · exact natToStr_noLB _ c hm
  · have hm2 : c ∈ ['.'] := hm
    simp only [List.mem_singleton] at hm2
    rw [hm2]; decide
  · have hm2 : c ∈ [digitChar ((roundHalfEven (q * 10000)).natAbs / 10 % 10),
        digitChar ((roundHalfEven (q * 10000)).natAbs % 10)] := hm
    simp only [List.mem_cons, List.not_mem_nil, or_false, List.mem_singleton] at hm2
    rcases hm2 with h | h
    · rw [h]; exact digitChar_not_lb _
    · rw [h]; exact digitChar_not_lb _
  · have hm2 : c ∈ ['%'] := hm
    simp only [List.mem_singleton] at hm2
    rw [hm2]; decide

/-- Parsing a formatted error entry with a clean message yields exactly
the three fields: label "unknown", the message, meaning "N/A" — and no
confidence key. -/
theorem parse_format_error (msg : String) (h : cleanField msg = true) :
    parseEntry (_format_error msg) =
      [("label", "unknown"), ("description", msg), ("meaning", "N/A")] := by
  have hshape : (_format_error msg).data =
      ("[label]" : String).data ++ '\n' ::
      (("  unknown" : String).data ++ '\n' ::
      (("[description]" : String).data ++ '\n' ::
      (("  " ++ msg).data ++ '\n' ::
      (("[meaning]" : String).data ++ '\n' ::
      ("  N/A" : String).data)))) := rfl
  have hlines : splitLines (_format_error msg).data =
      [("[label]" : String).data, ("  unknown" : String).data,
       ("[description]" : String).data, ("  " ++ msg).data,
       ("[meaning]" : String).data, ("  N/A" : String).data] := by
    rw [hshape,
      splitLines_append_cons _ (by decide),
      splitLines_append_cons _ (by decide),
      splitLines_append_cons _ (by decide),
      splitLines_append_cons _ (noLB_indent (noLB_of_cleanField h)),
      splitLines_append_cons _ (by decide),
      splitLines_single (by decide) (by decide)]
  unfold parseEntry
  rw [hlines]
  show (some "meaning",
      [("label", "unknown"),
       ("description", pyStrip ("" ++ " " ++ pyStrip ("  " ++ msg))),
       ("meaning", "N/A")]).2 = _
  rw [value_single msg (cleanField_strip h)]

/-- Parsing a formatted successful image entry yields exactly the four
fields, confidence included. -/
theorem parse_format_image_keys (l d m : String) (c : ℚ)
    (hl : cleanField l = true) (hd : cleanField d = true)
    (hm : cleanField m = true) :
    (parseEntry (_format_entry ⟨l, d, m, c⟩)).map Prod.fst =
      ["label", "description", "meaning", "confidence"] := by
  have hshape : (_format_entry ⟨l, d, m, c⟩).data =
      ("[label]" : String).data ++ '\n' ::
      (("  " ++ l).data ++ '\n' ::
      (("[description]" : String).data ++ '\n' ::
      (("  " ++ d).data ++ '\n' ::
      (("[meaning]" : String).data ++ '\n' ::
      (("  " ++ m).data ++ '\n' ::
      (("[confidence]" : String).data ++ '\n' ::
      ("  " ++ renderPercent c).data)))))) := rfl
  have hlines : splitLines (_format_entry ⟨l, d, m, c⟩).data =
      [("[label]" : String).data, ("  " ++ l).data,
       ("[description]" : String).data, ("  " ++ d).data,
       ("[meaning]" : String).data, ("  " ++ m).data,
       ("[confidence]" : String).data, ("  " ++ renderPercent c).data] := by
    rw [hshape,
      splitLines_append_cons _ (by decide),
      splitLines_append_cons _ (noLB_indent (noLB_of_cleanField hl)),
      splitLines_append_cons _ (by decide),
      splitLines_append_cons _ (noLB_indent (noLB_of_cleanField hd)),
      splitLines_append_cons _ (by decide),
      splitLines_append_cons _ (noLB_indent (noLB_of_cleanField hm)),
      splitLines_append_cons _ (by decide),
      splitLines_single (by simp [show ("  " ++ renderPercent c).data =
          ' ' :: ' ' :: (renderPercent c).data from rfl])
        (noLB_indent (renderPercent_noLB c))]
  unfold parseEntry
  rw [hlines]
  rfl

/-- C10: for a missing file, an unsupported extension, a decode failure
or an inference failure, `describe_image` returns the error entry; a
clean error entry parses to exactly three fields — label "unknown", the
error message as description, meaning "N/A" — with no confidence key,
unlike a successful image entry, which carries all four keys including
confidence. -/
theorem C10_error_entries :
    (∀ (env : ImageEnv) (table : List (String × String × String)) (path : String),
      env.isFile path = false →
      describe_image env table path = _format_error ("File not found: " ++ path)) ∧
    (∀ (env : ImageEnv) (table : List (String × String × String)) (path : String),
      env.isFile path = true →
      validExtensions.contains (pyLower (splitextExt path)) = false →
      describe_image env table path = _format_error
        ("Unsupported image format '" ++ splitextExt path ++ "'. Please use JPG or PNG.")) ∧
    (∀ (env : ImageEnv) (table : List (String × String × String)) (path exc : String),
      env.isFile path = true →
      validExtensions.contains (pyLower (splitextExt path)) = true →
      env.loadImage path = Except.error exc →
      describe_image env table path = _format_error ("Could not read image: " ++ exc)) ∧
    (∀ (env : ImageEnv) (table : List (String × String × String)) (path exc : String),
      env.isFile path = true →
      validExtensions.contains (pyLower (splitextExt path)) = true →
      env.loadImage path = Except.ok () →
      env.classify path = Except.error exc →
      describe_image env table path = _format_error ("Classification error: " ++ exc)) ∧
    (∀ msg : String, cleanField msg = true →
      parseEntry (_format_error msg) =
        [("label", "unknown"), ("description", msg), ("meaning", "N/A")]) ∧
    (∀ (l d m : String) (c : ℚ), cleanField l = true → cleanField d = true →
      cleanField m = true →
      (parseEntry (_format_entry ⟨l, d, m, c⟩)).map Prod.fst =
        ["label", "description", "meaning", "confidence"]) := by
  refine ⟨?_, ?_, ?_, ?_, parse_format_error, parse_format_image_keys⟩
  · intro env table path h
    simp [describe_image, h]
  · intro env table path h1 h2
    have h2' : pyLower (splitextExt path) ∉ validExtensions := by simpa using h2
    simp [describe_image, h1, h2']
  · intro env table path exc h1 h2 h3
    have h2' : pyLower (splitextExt path) ∈ validExtensions := by simpa using h2
    simp [describe_image, h1, h2', h3]
  · intro env table path exc h1 h2 h3 h4
    have h2' : pyLower (splitextExt path) ∈ validExtensions := by simpa using h2
    simp [describe_image, h1, h2', h3, h4]

/-- Witness for C10: each error path at a concrete environment, the
error-entry parse at a concrete message, and the four keys of a
successful entry. -/
theorem C10_error_entries_witness :
    describe_image ⟨fun _ => false, fun _ => Except.ok (), fun _ => Except.error "e"⟩
        [] "x.png" = _format_error ("File not found: " ++ "x.png") ∧
    describe_image ⟨fun _ => true, fun _ => Except.ok (), fun _ => Except.error "e"⟩
        [] "file.txt" = _format_error
        ("Unsupported image format '" ++ splitextExt "file.txt" ++
          "'. Please use JPG or PNG.") ∧
    describe_image ⟨fun _ => true, fun _ => Except.error "boom", fun _ => Except.error "e"⟩
        [] "a.png" = _format_error ("Could not read image: " ++ "boom") ∧
    describe_image ⟨fun _ => true, fun _ => Except.ok (), fun _ => Except.error "infer"⟩
        [] "a.png" = _format_error ("Classification error: " ++ "infer") ∧
    parseEntry (_format_error "File not found: x.png") =
      [("label", "unknown"), ("description", "File not found: x.png"),
       ("meaning", "N/A")] ∧
    (parseEntry (_format_entry ⟨"tabby", "a tabby cat", "a cat", 0⟩)).map Prod.fst =
      ["label", "description", "meaning", "confidence"] := by
  refine ⟨?_, ?_, ?_, ?_, ?_, ?_⟩
  · exact C10_error_entries.1 _ [] "x.png" rfl
  · exact C10_error_entries.2.1 _ [] "file.txt" rfl (by decide)
  · exact C10_error_entries.2.2.1 _ [] "a.png" "boom" rfl (by decide) rfl
  · exact C10_error_entries.2.2.2.1 _ [] "a.png" "infer" rfl (by decide) rfl rfl
  · exact C10_error_entries.2.2.2.2.1 "File not found: x.png" (by decide)
  · exact C10_error_entries.2.2.2.2.2 "tabby" "a tabby cat" "a cat" 0
      (by decide) (by decide) (by decide)

end Roundtrip

end DictBot
